import Mathlib

/-!
Verification of the neuroformats FreeSurfer file-format library.

Shallow embedding of the decoding/encoding layer:
byte streams are `List Nat` (each element one byte), `u32`/`i32`/`i16`
values are `Nat`/`Int` with explicit two's-complement wrapping where the
Rust code performs machine arithmetic, `f32` payload values are carried
as their 32-bit patterns (the codecs only move them, never compute with
them), and the `f32` header fields entering the vox2ras derivation are
modelled as exact rationals.  `Result`-returning Rust functions become
`Except NeuroformatsError`; panics (`unwrap`, `expect`, out-of-bounds
indexing) are modelled as a distinct failure.
-/

/-- Error type mirroring the variants of the crate error enum used by the
decoding layer (error.rs). -/
inductive NeuroformatsError where
  | InvalidCurvFormat
  | InvalidFsSurfaceFormat
  | InvalidFsLabelFormat
  | UnsupportedFsAnnotFormatVersion
  | InvalidFsMghFormat
  | UnsupportedMriDataTypeInMgh
  | NoRasInformationInHeader
  | Io
  deriving DecidableEq, Repr

/-- A Rust call either panics (`unwrap`/`expect`/index out of bounds) or
returns an error value through the `Result` channel. -/
inductive DecodeFailure where
  | panic
  | err (e : NeuroformatsError)
  deriving DecidableEq, Repr

/-- Two's-complement wrap of an integer into the `i32` range, the semantics
of overflowing `i32` arithmetic in Rust release builds. -/
def i32wrap (n : Int) : Int := (n + 2 ^ 31) % 2 ^ 32 - 2 ^ 31

/-- The `as usize` cast of an `i32` value (sign extension to 64 bits). -/
def usizeOfI32 (i : Int) : Nat := (i % 2 ^ 64).toNat

/-- Big-endian byte quadruple of a 32-bit word (`write_u32`/`write_i32`
byte layout). -/
def u32ToBytesBE (n : Nat) : List Nat :=
  [n / 2 ^ 24 % 256, n / 2 ^ 16 % 256, n / 2 ^ 8 % 256, n % 256]

/-- Recombine four big-endian bytes into a 32-bit word. -/
def bytesToU32BE (b0 b1 b2 b3 : Nat) : Nat :=
  b0 * 2 ^ 24 + b1 * 2 ^ 16 + b2 * 2 ^ 8 + b3

/-- Bit pattern (as a `Nat`) of an `i32` value. -/
def i32ToU32 (i : Int) : Nat := (i % 2 ^ 32).toNat

/-- Interpret a 32-bit word as a signed `i32` value. -/
def u32ToI32 (n : Nat) : Int :=
  if n < 2 ^ 31 then (n : Int) else (n : Int) - 2 ^ 32

/-- Interpret two big-endian bytes as a signed `i16` value (`read_i16`). -/
def bytesToI16BE (b0 b1 : Nat) : Int :=
  if b0 * 256 + b1 < 2 ^ 15 then ((b0 * 256 + b1 : Nat) : Int)
  else ((b0 * 256 + b1 : Nat) : Int) - 2 ^ 16

/-- Big-endian serialization of an `i32` value (`write_i32`). -/
def encodeI32 (i : Int) : List Nat := u32ToBytesBE (i32ToU32 i)

/-- Read one byte from the stream (`read_u8`); `none` is end of input. -/
def readByte : List Nat → Option (Nat × List Nat)
  | [] => none
  | b :: rest => some (b, rest)

/-- Read a big-endian 32-bit word from the stream (`read_u32`). -/
def readU32 : List Nat → Option (Nat × List Nat)
  | b0 :: b1 :: b2 :: b3 :: rest => some (bytesToU32BE b0 b1 b2 b3, rest)
  | _ => none

/-- Read a big-endian `i32` from the stream (`read_i32`). -/
def readI32 (s : List Nat) : Option (Int × List Nat) :=
  (readU32 s).map (fun p => (u32ToI32 p.1, p.2))

/-- Read a big-endian `i16` from the stream (`read_i16`). -/
def readI16 : List Nat → Option (Int × List Nat)
  | b0 :: b1 :: rest => some (bytesToI16BE b0 b1, rest)
  | _ => none

/-! ## util.rs : fixed-length string reader -/

/-- Translation of `read_fixed_length_string` (util.rs): read exactly `len`
bytes; every byte is appended to the output except a zero byte at the final
position, which is consumed but not appended.  A short read is an I/O
error. -/
def read_fixed_length_string : Nat → List Nat → Except NeuroformatsError (List Nat × List Nat)
  | 0, s => .ok ([], s)
  | _ + 1, [] => .error .Io
  | n + 1, c :: rest =>
    if n = 0 then
      .ok (if c = 0 then [] else [c], rest)
    else
      match read_fixed_length_string n rest with
      | .error e => .error e
      | .ok (out, s2) => .ok (c :: out, s2)

/-- The string produced by reading `n` bytes from `s`: all `n` bytes, except
that a zero byte at position `n - 1` is dropped. -/
def fixedStringOf (n : Nat) (s : List Nat) : List Nat :=
  if 0 < n ∧ (s.drop (n - 1)).head? = some 0 then s.take (n - 1) else s.take n

/-! ## fs_surface.rs : surface mesh codec -/

/-- Translation of the loop body of `read_fs_variable_length_string`
(util.rs): read bytes, appending each one, until the previously read byte
and the current byte are both line feeds (10).  `prev` is the previously
read byte (initially the character `0`, code 48). -/
def readVarStringAux (prev : Nat) : List Nat → Option (List Nat × List Nat)
  | [] => none
  | c :: rest =>
    if prev = 10 ∧ c = 10 then some ([c], rest)
    else (readVarStringAux c rest).map (fun p => (c :: p.1, p.2))

/-- Translation of `read_fs_variable_length_string` (util.rs). -/
def read_fs_variable_length_string (s : List Nat) : Option (List Nat × List Nat) :=
  readVarStringAux 48 s

/-- Header of a FreeSurfer surf file (`FsSurfaceHeader`); the info line is
kept as its byte sequence. -/
structure FsSurfaceHeader where
  surf_magic : Nat × Nat × Nat
  info_line : List Nat
  num_vertices : Int
  num_faces : Int
  deriving DecidableEq, Repr

/-- A brain mesh (`BrainMesh`): vertex coordinates as a flat list of `f32`
bit patterns, faces as a flat list of `i32` vertex indices. -/
structure BrainMesh where
  vertices : List Nat
  faces : List Int
  deriving DecidableEq, Repr

/-- A surf file in memory (`FsSurface`). -/
structure FsSurface where
  header : FsSurfaceHeader
  mesh : BrainMesh
  deriving DecidableEq, Repr

/-- The surf-format magic constant `TRIS_MAGIC_FILE_TYPE_NUMBER`. -/
def TRIS_MAGIC_FILE_TYPE_NUMBER : Int := 16777214

/-- Translation of `interpret_fs_int24` (fs_surface.rs): three bytes as a
24-bit big-endian integer.  The shifts cannot overflow for byte inputs and
the checked shift amounts are in range, so this is plain arithmetic. -/
def interpret_fs_int24 (b1 b2 b3 : Nat) : Int :=
  (b1 * 2 ^ 16 + b2 * 2 ^ 8 + b3 : Nat)

/-- Translation of `FsSurfaceHeader::from_reader` (fs_surface.rs): read the
three magic bytes, the double-linefeed-terminated info line and the two
counts, then validate the magic number. -/
def FsSurfaceHeader.from_reader (s : List Nat) :
    Except NeuroformatsError (FsSurfaceHeader × List Nat) :=
  match s with
  | b1 :: b2 :: b3 :: s1 =>
    match read_fs_variable_length_string s1 with
    | none => .error .Io
    | some (info, s2) =>
      match readI32 s2 with
      | none => .error .Io
      | some (nv, s3) =>
        match readI32 s3 with
        | none => .error .Io
        | some (nf, s4) =>
          if interpret_fs_int24 b1 b2 b3 = TRIS_MAGIC_FILE_TYPE_NUMBER then
            .ok (⟨(b1, b2, b3), info, nv, nf⟩, s4)
          else
            .error .InvalidFsSurfaceFormat
  | _ => .error .Io

/-- Read `n` big-endian 32-bit words (the `f32` payload values, kept as bit
patterns); `none` models the `.unwrap()` panic on a failed read. -/
def readWords : Nat → List Nat → Option (List Nat × List Nat)
  | 0, s => some ([], s)
  | n + 1, s =>
    match readU32 s with
    | none => none
    | some (w, s1) =>
      match readWords n s1 with
      | none => none
      | some (ws, s2) => some (w :: ws, s2)

/-- Read `n` big-endian `i32` values; `none` models the `.unwrap()` panic on
a failed read. -/
def readI32s : Nat → List Nat → Option (List Int × List Nat)
  | 0, s => some ([], s)
  | n + 1, s =>
    match readI32 s with
    | none => none
    | some (w, s1) =>
      match readI32s n s1 with
      | none => none
      | some (ws, s2) => some (w :: ws, s2)

/-- Translation of `FsSurface::mesh_from_reader` (fs_surface.rs): read
`3 * num_vertices` floats then `3 * num_faces` indices.  The `i32`
multiplications wrap on overflow (release semantics) and a negative count
makes the read loop run zero times; read failures panic (`unwrap`). -/
def FsSurface.mesh_from_reader (s : List Nat) (hdr : FsSurfaceHeader) :
    Option (BrainMesh × List Nat) :=
  match readWords (i32wrap (hdr.num_vertices * 3)).toNat s with
  | none => none
  | some (vs, s1) =>
    match readI32s (i32wrap (hdr.num_faces * 3)).toNat s1 with
    | none => none
    | some (fs, s2) => some (⟨vs, fs⟩, s2)

/-- Translation of `FsSurface::from_file` (fs_surface.rs).  The header
result is `.unwrap()`ed, so a header error becomes a panic; read failures
inside `mesh_from_reader` also panic. -/
def FsSurface.from_file (s : List Nat) : Except DecodeFailure FsSurface :=
  match FsSurfaceHeader.from_reader s with
  | .error _ => .error .panic
  | .ok (hdr, rest) =>
    match FsSurface.mesh_from_reader rest hdr with
    | none => .error .panic
    | some (mesh, _) => .ok ⟨hdr, mesh⟩

/-- Translation of `write_surf` (fs_surface.rs): magic bytes, info line
verbatim, the two counts, then the vertex floats and face indices, all
big-endian. -/
def write_surf (surf : FsSurface) : List Nat :=
  surf.header.surf_magic.1 :: surf.header.surf_magic.2.1 :: surf.header.surf_magic.2.2 ::
    (surf.header.info_line ++
      (encodeI32 surf.header.num_vertices ++
        (encodeI32 surf.header.num_faces ++
          ((surf.mesh.vertices.map u32ToBytesBE).flatten ++
            (surf.mesh.faces.map encodeI32).flatten))))

/-- A structurally valid in-memory surf value: correct magic triple, an
info line that the variable-length string reader consumes exactly, header
counts in `i32` range that are consistent with the vertex and face array
lengths, `f32` bit patterns that fit 32 bits, and face indices in `i32`
range. -/
def FsSurface.valid (x : FsSurface) : Prop :=
  x.header.surf_magic = (255, 255, 254) ∧
  read_fs_variable_length_string x.header.info_line = some (x.header.info_line, []) ∧
  0 ≤ x.header.num_vertices ∧ x.header.num_vertices * 3 < 2 ^ 31 ∧
  0 ≤ x.header.num_faces ∧ x.header.num_faces * 3 < 2 ^ 31 ∧
  x.mesh.vertices.length = 3 * x.header.num_vertices.toNat ∧
  x.mesh.faces.length = 3 * x.header.num_faces.toNat ∧
  (∀ w ∈ x.mesh.vertices, w < 2 ^ 32) ∧
  (∀ i ∈ x.mesh.faces, -2 ^ 31 ≤ i ∧ i < 2 ^ 31)

/-! ## fs_label.rs : label codec -/

/-- A parsed FreeSurfer label (`FsLabel`); the float columns are carried as
exact rationals (the codec never computes with them). -/
structure FsLabel where
  vertex_index : List Int
  coord1 : List Rat
  coord2 : List Rat
  coord3 : List Rat
  value : List Rat
  deriving DecidableEq, Repr

/-- The five successfully parsed fields of one data line of a label file
(the `expect` calls in `read_label` panic when a field fails to parse, so a
non-panicking run works on values of this shape). -/
structure LabelLine where
  vertex_index : Int
  coord1 : Rat
  coord2 : Rat
  coord3 : Rat
  value : Rat
  deriving DecidableEq, Repr

/-- Translation of `read_label` (fs_label.rs) after line splitting and field
parsing: `hdr_num_entries` is the count parsed from line 1, `dataLines` the
parsed lines from index 2 on.  The final check compares the declared count,
cast `as usize` (sign extension), with the number of parsed entries. -/
def read_label (hdr_num_entries : Int) (dataLines : List LabelLine) :
    Except NeuroformatsError FsLabel :=
  let label : FsLabel :=
    { vertex_index := dataLines.map LabelLine.vertex_index
      coord1 := dataLines.map LabelLine.coord1
      coord2 := dataLines.map LabelLine.coord2
      coord3 := dataLines.map LabelLine.coord3
      value := dataLines.map LabelLine.value }
  if usizeOfI32 hdr_num_entries ≠ label.vertex_index.length then
    .error .InvalidFsLabelFormat
  else
    .ok label

/-- One `data_bin[idx] = true` store; `none` models the index-out-of-bounds
panic. -/
def setTrueAt (l : List Bool) (i : Nat) : Option (List Bool) :=
  if i < l.length then some (l.set i true) else none

/-- The store loop of `is_surface_vertex_in_label`. -/
def maskLoop : List Int → List Bool → Option (List Bool)
  | [], acc => some acc
  | i :: rest, acc =>
    match setTrueAt acc (usizeOfI32 i) with
    | none => none
    | some acc2 => maskLoop rest acc2

/-- Translation of `FsLabel::is_surface_vertex_in_label` (fs_label.rs):
panic (`none`) when the supplied vertex count is smaller than the number of
label entries, otherwise flip the mask entry at each (usize-cast) vertex
index, panicking on an out-of-bounds index. -/
def FsLabel.is_surface_vertex_in_label (label : FsLabel) (num_surface_verts : Nat) :
    Option (List Bool) :=
  if num_surface_verts < label.vertex_index.length then none
  else maskLoop label.vertex_index (List.replicate num_surface_verts false)

/-! ## fs_annot.rs : parcellation codec -/

/-- Wrapping `i32` addition (release-build overflow semantics). -/
def i32add (x y : Int) : Int := i32wrap (x + y)

/-- Wrapping `i32` multiplication (release-build overflow semantics). -/
def i32mul (x y : Int) : Int := i32wrap (x * y)

/-- The colortable of a parcellation (`FsAnnotColortable`): parallel
columns, one row per region; region names are byte strings. -/
structure FsAnnotColortable where
  id : List Int
  name : List (List Nat)
  r : List Int
  g : List Int
  b : List Int
  a : List Int
  label : List Int
  deriving DecidableEq, Repr

/-- The raw fields of one colortable row as read from the byte stream by
`FsAnnotColortable::from_reader` before the derived label is computed. -/
structure RawColortableEntry where
  id : Int
  name : List Nat
  r : Int
  g : Int
  b : Int
  a : Int
  deriving DecidableEq, Repr

/-- The derived label computed in the `FsAnnotColortable::from_reader` loop
(fs_annot.rs line 59): `r + g*2^8 + b*2^16 + a*2^24` in `i32` arithmetic,
each operation wrapping on overflow. -/
def colortableEntryLabel (r g b a : Int) : Int :=
  i32add (i32add (i32add r (i32mul g (2 ^ 8))) (i32mul b (2 ^ 16))) (i32mul a (2 ^ 24))

/-- Translation of the `FsAnnotColortable::from_reader` loop (fs_annot.rs)
over the successfully read raw rows: builds the column vectors and the
derived label of every row. -/
def FsAnnotColortable.from_entries (entries : List RawColortableEntry) : FsAnnotColortable :=
  { id := entries.map RawColortableEntry.id
    name := entries.map RawColortableEntry.name
    r := entries.map RawColortableEntry.r
    g := entries.map RawColortableEntry.g
    b := entries.map RawColortableEntry.b
    a := entries.map RawColortableEntry.a
    label := entries.map (fun e => colortableEntryLabel e.r e.g e.b e.a) }

/-- A parcellation (`FsAnnot`). -/
structure FsAnnot where
  vertex_indices : List Int
  vertex_labels : List Int
  colortable : FsAnnotColortable
  deriving DecidableEq, Repr

/-- Position of the first occurrence of `x` in `l`
(`Iterator::position`). -/
def firstPos (l : List (List Nat)) (x : List Nat) : Option Nat :=
  match l with
  | [] => none
  | y :: t => if y = x then some 0 else (firstPos t x).map (· + 1)

/-- One `vert_regions[idx] = name` store; `none` models the
index-out-of-bounds panic. -/
def listSetName (l : List (List Nat)) (i : Nat) (x : List Nat) : Option (List (List Nat)) :=
  if i < l.length then some (l.set i x) else none

/-- The inner loop of `FsAnnot::vertex_regions`: for each vertex (in order,
`idx` is the enumeration counter) whose label equals the region label,
store the region name at the vertex position. -/
def assignRegionLoop (region_name : List Nat) (region_label : Int) :
    Nat → List Int → List (List Nat) → Option (List (List Nat))
  | _, [], acc => some acc
  | idx, vl :: rest, acc =>
    if vl = region_label then
      match listSetName acc idx region_name with
      | none => none
      | some acc2 => assignRegionLoop region_name region_label (idx + 1) rest acc2
    else
      assignRegionLoop region_name region_label (idx + 1) rest acc

/-- The outer loop of `FsAnnot::vertex_regions` over the colortable region
names: look up the region position by name (`expect` panics when absent),
fetch its label and name, then run the per-vertex assignment loop. -/
def vertexRegionsGo (annot : FsAnnot) : List (List Nat) → List (List Nat) →
    Option (List (List Nat))
  | [], acc => some acc
  | nm :: rest, acc =>
    match firstPos annot.colortable.name nm with
    | none => none
    | some region_idx =>
      match annot.colortable.label.get? region_idx, annot.colortable.name.get? region_idx with
      | some region_label, some region_name =>
        match assignRegionLoop region_name region_label 0 annot.vertex_labels acc with
        | none => none
        | some acc2 => vertexRegionsGo annot rest acc2
      | _, _ => none

/-- Translation of `FsAnnot::vertex_regions` (fs_annot.rs): the accumulator
starts as `Vec::with_capacity(len)`, whose length is zero. -/
def FsAnnot.vertex_regions (annot : FsAnnot) : Option (List (List Nat)) :=
  vertexRegionsGo annot annot.colortable.name []

/-! ## fs_mgh.rs : MGH volume codec -/

/-- FreeSurfer MRI data-type code for `u8` (`MRI_UCHAR`). -/
def MRI_UCHAR : Int := 0

/-- FreeSurfer MRI data-type code for `i32` (`MRI_INT`). -/
def MRI_INT : Int := 1

/-- FreeSurfer MRI data-type code for `f32` (`MRI_FLOAT`). -/
def MRI_FLOAT : Int := 3

/-- FreeSurfer MRI data-type code for `i16` (`MRI_SHORT`). -/
def MRI_SHORT : Int := 4

/-- Byte offset where the data part of an MGH file starts
(`MGH_DATA_START`). -/
def MGH_DATA_START : Nat := 284

/-- Header of an MGH file (`FsMghHeader`).  The `f32` calibration fields
(`delta`, `mdc_raw` row-major 3x3, `p_xyz_c`) are modelled as exact
rationals. -/
structure FsMghHeader where
  mgh_format_version : Int
  dim1len : Int
  dim2len : Int
  dim3len : Int
  dim4len : Int
  dtype : Int
  dof : Int
  is_ras_good : Int
  delta : List Rat
  mdc_raw : List Rat
  p_xyz_c : List Rat
  deriving DecidableEq, Repr

/-- Entry `(i, j)` of `mdc_scaled = mdc_mat . D` in `FsMghHeader::vox2ras`
with the arithmetic carried out exactly: the direction-cosine matrix
(row-major `mdc_raw`) scaled columnwise by the voxel sizes `delta`.  This
and the following `FsMghHeader` functions form the exact-arithmetic
reference model of the derivation; the `f32` arithmetic the code actually
performs is modelled separately below (`f32round` and the `..32`
functions). -/
def FsMghHeader.mdc_scaled (h : FsMghHeader) (i j : Nat) : Rat :=
  h.mdc_raw.getD (3 * i + j) 0 * h.delta.getD j 0

/-- Component `j` of the center-voxel index vector `p_crs_c` in
`FsMghHeader::vox2ras`: the dimensions halved by truncating integer
division (exact-arithmetic model; the `as f32` conversion of the code is
applied in `FsMghHeader.p_crs_c32`). -/
def FsMghHeader.p_crs_c (h : FsMghHeader) : Nat → Rat
  | 0 => ((h.dim1len.tdiv 2 : Int) : Rat)
  | 1 => ((h.dim2len.tdiv 2 : Int) : Rat)
  | 2 => ((h.dim3len.tdiv 2 : Int) : Rat)
  | _ => 0

/-- Component `k` of `p_xyz_0 = p_xyz_c - mdc_scaled^T . p_crs_c` in
`FsMghHeader::vox2ras` (the physical coordinate of voxel `(0,0,0)`),
exact-arithmetic model. -/
def FsMghHeader.p_xyz_0 (h : FsMghHeader) (k : Nat) : Rat :=
  h.p_xyz_c.getD k 0 -
    (h.mdc_scaled 0 k * h.p_crs_c 0 + h.mdc_scaled 1 k * h.p_crs_c 1 +
      h.mdc_scaled 2 k * h.p_crs_c 2)

/-- Entry `(i, j)` of the final 4x4 vox2ras matrix `m.t()` built by
`FsMghHeader::vox2ras`: `m` has `mdc_scaled` in its upper-left 3x3 block,
`p_xyz_0` in row 3, a final 1 at `(3,3)` and zeros elsewhere; the function
returns its transpose (exact-arithmetic model). -/
def FsMghHeader.vox2rasEntry (h : FsMghHeader) (i j : Nat) : Rat :=
  if i < 3 ∧ j < 3 then h.mdc_scaled j i
  else if i < 3 ∧ j = 3 then h.p_xyz_0 i
  else if i = 3 ∧ j = 3 then 1
  else 0

/-- Translation of `FsMghHeader::vox2ras` (fs_mgh.rs) over the exact-
arithmetic model: fails with `NoRasInformationInHeader` unless the
calibration-valid flag is 1. -/
def FsMghHeader.vox2ras (h : FsMghHeader) :
    Except NeuroformatsError (Nat → Nat → Rat) :=
  if h.is_ras_good ≠ 1 then .error .NoRasInformationInHeader
  else .ok h.vox2rasEntry

/-- Row `i` of the matrix-vector product of a 4x4 matrix with the
homogeneous column vector `(v0, v1, v2, 1)`, exact-arithmetic model. -/
def mat4ApplyHom (M : Nat → Nat → Rat) (v0 v1 v2 : Rat) (i : Nat) : Rat :=
  M i 0 * v0 + M i 1 * v1 + M i 2 * v2 + M i 3 * 1

/-- Power of two as a rational, for an integer exponent. -/
def pow2 (e : Int) : Rat :=
  if 0 ≤ e then ((2 ^ e.toNat : Nat) : Rat) else mkRat 1 (2 ^ (-e).toNat)

/-- Floor of a rational, as an integer. -/
def ratFloor (x : Rat) : Int := x.num.fdiv (x.den : Int)

/-- Base-2 logarithm (floor) on naturals, written with explicit fuel so
that it reduces in the kernel; the fuel `n` always dominates the bit
length of `n`. -/
def natLog2F : Nat → Nat → Nat
  | 0, _ => 0
  | fuel + 1, n => if n ≤ 1 then 0 else natLog2F fuel (n / 2) + 1

/-- Floor of the base-2 logarithm of a natural number. -/
def natLog2 (n : Nat) : Nat := natLog2F n n

/-- Floor of the base-2 logarithm of a positive rational (0 for
nonpositive input).  The bit-length estimate from numerator and
denominator is off by at most one, so one comparison fixes it up. -/
def ratLog2 (x : Rat) : Int :=
  if x ≤ 0 then 0
  else
    let a := x.num.toNat
    let b := x.den
    let e0 : Int := (natLog2 a : Int) - (natLog2 b : Int)
    if pow2 (e0 + 1) ≤ x then e0 + 1
    else if pow2 e0 ≤ x then e0
    else e0 - 1

/-- Round a rational to the nearest IEEE-754 binary32 value (round to
nearest, ties to even): 24-bit significand, minimum normal exponent -126
with gradual underflow (subnormal quantum 2^-149).  The model is faithful
to `f32` for computations whose correctly rounded intermediate results
stay strictly below 2^128 in magnitude, so that no infinities or NaNs
arise; every concrete evaluation in this file stays far inside that
range (the largest magnitude is 2^107). -/
def f32round (x : Rat) : Rat :=
  if x = 0 then 0
  else
    let ax := if 0 < x then x else -x
    let e := max (ratLog2 ax) (-126)
    let q := pow2 (e - 23)
    let n := ax * pow2 (23 - e)
    let lo := ratFloor n
    let frac := n - (lo : Rat)
    let half := mkRat 1 2
    let m : Int :=
      if half < frac then lo + 1
      else if frac < half then lo
      else if lo % 2 = 0 then lo else lo + 1
    (if 0 < x then 1 else -1) * ((m : Rat) * q)

/-- `f32` addition: the exact sum, correctly rounded. -/
def f32add (a b : Rat) : Rat := f32round (a + b)

/-- `f32` subtraction: the exact difference, correctly rounded. -/
def f32sub (a b : Rat) : Rat := f32round (a - b)

/-- `f32` multiplication: the exact product, correctly rounded. -/
def f32mul (a b : Rat) : Rat := f32round (a * b)

/-- The zero-initialized 3x3 matrix `d` with the voxel sizes `delta` on
its diagonal (fs_mgh.rs lines 158-161). -/
def FsMghHeader.dMat (h : FsMghHeader) (k j : Nat) : Rat :=
  if k = j then h.delta.getD j 0 else 0

/-- Entry `(i, j)` of `mdc_scaled = mdc_mat.dot(&d)` computed in `f32`
arithmetic: a three-term dot product with every product and running sum
correctly rounded.  (In every concrete evaluation in this file at most one
addend of each sum is nonzero and all products are exact powers of two, so
the value does not depend on the accumulation order the underlying matrix
multiply uses.) -/
def FsMghHeader.mdc_scaled32 (h : FsMghHeader) (i j : Nat) : Rat :=
  f32add (f32add (f32mul (h.mdc_raw.getD (3 * i) 0) (h.dMat 0 j))
      (f32mul (h.mdc_raw.getD (3 * i + 1) 0) (h.dMat 1 j)))
    (f32mul (h.mdc_raw.getD (3 * i + 2) 0) (h.dMat 2 j))

/-- Component `j` of `p_crs_c` with the halved dimension converted
`as f32` (a correctly rounded integer-to-float conversion). -/
def FsMghHeader.p_crs_c32 (h : FsMghHeader) : Nat → Rat
  | 0 => f32round ((h.dim1len.tdiv 2 : Int) : Rat)
  | 1 => f32round ((h.dim2len.tdiv 2 : Int) : Rat)
  | 2 => f32round ((h.dim3len.tdiv 2 : Int) : Rat)
  | _ => 0

/-- Component `k` of `p_xyz_0 = p_xyz_c - mdc_scaled.t().dot(&p_crs_c)`
computed in `f32` arithmetic. -/
def FsMghHeader.p_xyz_0_32 (h : FsMghHeader) (k : Nat) : Rat :=
  f32sub (h.p_xyz_c.getD k 0)
    (f32add (f32add (f32mul (h.mdc_scaled32 0 k) (h.p_crs_c32 0))
        (f32mul (h.mdc_scaled32 1 k) (h.p_crs_c32 1)))
      (f32mul (h.mdc_scaled32 2 k) (h.p_crs_c32 2)))

/-- Entry `(i, j)` of the vox2ras matrix with its blocks computed in `f32`
arithmetic (same layout as `FsMghHeader.vox2rasEntry`). -/
def FsMghHeader.vox2rasEntry32 (h : FsMghHeader) (i j : Nat) : Rat :=
  if i < 3 ∧ j < 3 then h.mdc_scaled32 j i
  else if i < 3 ∧ j = 3 then h.p_xyz_0_32 i
  else if i = 3 ∧ j = 3 then 1
  else 0

/-- `FsMghHeader::vox2ras` with its arithmetic performed in `f32`. -/
def FsMghHeader.vox2ras32 (h : FsMghHeader) :
    Except NeuroformatsError (Nat → Nat → Rat) :=
  if h.is_ras_good ≠ 1 then .error .NoRasInformationInHeader
  else .ok h.vox2rasEntry32

/-- Row `i` of the `f32` matrix-vector product with the homogeneous
column vector `(v0, v1, v2, 1)` - the multiplication of the claim, as the
repository applies it with `ndarray::dot` on `f32` values (fs_mgh.rs
test at lines 392-396). -/
def mat4ApplyHom32 (M : Nat → Nat → Rat) (v0 v1 v2 : Rat) (i : Nat) : Rat :=
  f32add (f32add (f32add (f32mul (M i 0) v0) (f32mul (M i 1) v1)) (f32mul (M i 2) v2))
    (f32mul (M i 3) 1)

/-- A 4-dimensional array (`ndarray::Array4`): its shape and its flat data
vector. -/
structure Array4 (α : Type) where
  shape : Nat × Nat × Nat × Nat
  data : List α
  deriving DecidableEq, Repr

/-- `Array::from_shape_vec(shape, vec)`: succeeds only when the shape
product equals the vector length (`none` models the `.unwrap()` panic on
the error case). -/
def from_shape_vec {α : Type} (shape : Nat × Nat × Nat × Nat) (v : List α) :
    Option (Array4 α) :=
  if shape.1 * shape.2.1 * shape.2.2.1 * shape.2.2.2 = v.length then some ⟨shape, v⟩ else none

/-- The data part of an MGH file (`FsMghData`): one optional typed payload
per supported MRI data type.  Float samples are carried as 32-bit
patterns. -/
structure FsMghData where
  mri_uchar : Option (Array4 Nat)
  mri_float : Option (Array4 Nat)
  mri_int : Option (Array4 Int)
  mri_short : Option (Array4 Int)
  deriving DecidableEq, Repr

/-- Read `n` raw bytes (`read_u8` loop); `none` is end of input. -/
def readBytes : Nat → List Nat → Option (List Nat × List Nat)
  | 0, s => some ([], s)
  | n + 1, s =>
    match readByte s with
    | none => none
    | some (b, s1) =>
      match readBytes n s1 with
      | none => none
      | some (bs, s2) => some (b :: bs, s2)

/-- Read `n` big-endian `i16` values (`read_i16` loop); `none` is end of
input. -/
def readI16s : Nat → List Nat → Option (List Int × List Nat)
  | 0, s => some ([], s)
  | n + 1, s =>
    match readI16 s with
    | none => none
    | some (v, s1) =>
      match readI16s n s1 with
      | none => none
      | some (vs, s2) => some (v :: vs, s2)

/-- The `vol_dim` value of `FsMgh::data_from_reader`: the four dimension
fields, each cast `as usize`. -/
def mghVolDim (hdr : FsMghHeader) : Nat × Nat × Nat × Nat :=
  (usizeOfI32 hdr.dim1len, usizeOfI32 hdr.dim2len,
    usizeOfI32 hdr.dim3len, usizeOfI32 hdr.dim4len)

/-- The `num_voxels` value of `FsMgh::data_from_reader`: the `i32` product
of the four dimensions (wrapping on overflow), cast `as usize`. -/
def mghNumVoxels (hdr : FsMghHeader) : Nat :=
  usizeOfI32 (i32mul (i32mul (i32mul hdr.dim1len hdr.dim2len) hdr.dim3len) hdr.dim4len)

/-- Translation of `FsMgh::data_from_reader` (fs_mgh.rs): skip the fixed
284-byte header region, compute the voxel count as the `i32` product of
the four dimensions cast `as usize`, then read the payload whose element
type is selected by the header's dtype tag; an unrecognized tag is
`UnsupportedMriDataTypeInMgh`.  The `Array::from_shape_vec(..).unwrap()`
calls panic when the usize-cast shape product disagrees with the element
count. -/
def FsMgh.data_from_reader (bytes : List Nat) (hdr : FsMghHeader) :
    Except DecodeFailure FsMghData :=
  if bytes.length < MGH_DATA_START then .error (.err .Io)
  else if hdr.dtype = MRI_UCHAR then
    match readBytes (mghNumVoxels hdr) (bytes.drop MGH_DATA_START) with
    | none => .error (.err .Io)
    | some (d, _) =>
      match from_shape_vec (mghVolDim hdr) d with
      | none => .error .panic
      | some arr => .ok ⟨some arr, none, none, none⟩
  else if hdr.dtype = MRI_INT then
    match readI32s (mghNumVoxels hdr) (bytes.drop MGH_DATA_START) with
    | none => .error (.err .Io)
    | some (d, _) =>
      match from_shape_vec (mghVolDim hdr) d with
      | none => .error .panic
      | some arr => .ok ⟨none, none, some arr, none⟩
  else if hdr.dtype = MRI_FLOAT then
    match readWords (mghNumVoxels hdr) (bytes.drop MGH_DATA_START) with
    | none => .error (.err .Io)
    | some (d, _) =>
      match from_shape_vec (mghVolDim hdr) d with
      | none => .error .panic
      | some arr => .ok ⟨none, some arr, none, none⟩
  else if hdr.dtype = MRI_SHORT then
    match readI16s (mghNumVoxels hdr) (bytes.drop MGH_DATA_START) with
    | none => .error (.err .Io)
    | some (d, _) =>
      match from_shape_vec (mghVolDim hdr) d with
      | none => .error .panic
      | some arr => .ok ⟨none, none, none, some arr⟩
  else
    .error (.err .UnsupportedMriDataTypeInMgh)

/-- The voxel count of a header: the exact product of the four dimension
fields, as a natural number. -/
def mghVoxelCount (hdr : FsMghHeader) : Nat :=
  (hdr.dim1len * hdr.dim2len * hdr.dim3len * hdr.dim4len).toNat

deriving instance DecidableEq for Except

instance (x : FsSurface) : Decidable x.valid := by
  unfold FsSurface.valid
  infer_instance

/-! ## Concrete inputs used by witnesses and counterexamples -/

/-- A decodable calibrated header with the extreme voxel size 2^100 (an
exactly representable `f32` value), identity direction cosines and stored
center (1, 0, 0). -/
def c1BigDeltaHeader : FsMghHeader :=
  { mgh_format_version := 1, dim1len := 256, dim2len := 256, dim3len := 256, dim4len := 1,
    dtype := 0, dof := 0, is_ras_good := 1,
    delta := [2 ^ 100, 1, 1],
    mdc_raw := [1, 0, 0, 0, 1, 0, 0, 0, 1],
    p_xyz_c := [1, 0, 0] }

/-- A calibrated MGH header used as witness input. -/
def c1Header : FsMghHeader :=
  { mgh_format_version := 1, dim1len := 256, dim2len := 256, dim3len := 256, dim4len := 1,
    dtype := 0, dof := 0, is_ras_good := 1,
    delta := [1, 1, 1],
    mdc_raw := [-1, 0, 0, 0, 0, -1, 0, 1, 0],
    p_xyz_c := [-(1/2), 29, -48] }

/-- A small valid surf value used as witness input. -/
def c2Surf : FsSurface :=
  { header := { surf_magic := (255, 255, 254), info_line := [65, 10, 10],
                num_vertices := 1, num_faces := 1 },
    mesh := { vertices := [1, 2, 3], faces := [0, 0, 0] } }

/-- A complete surf header whose magic bytes are wrong: three zero bytes,
an info line, and two zero counts. -/
def c3BadInput : List Nat :=
  0 :: 0 :: 0 :: ([120, 10, 10] ++ (encodeI32 0 ++ encodeI32 0))

/-- Colortable row whose derived-label computation overflows `i32`. -/
def c5OverflowEntry : RawColortableEntry := ⟨0, [], 0, 0, 0, 255⟩

/-- A label with one entry whose vertex index is 5. -/
def c8Label : FsLabel := ⟨[5], [0], [0], [0], [0]⟩

/-- A label with one entry whose vertex index is 1. -/
def c8SmallLabel : FsLabel := ⟨[1], [0], [0], [0], [0]⟩

/-- A parcellation whose colortable has two rows sharing one region name:
the second row's derived label (2) is carried by the only vertex. -/
def c9DupAnnot : FsAnnot :=
  ⟨[0], [2], ⟨[0, 1], [[120], [120]], [0, 0], [0, 0], [0, 0], [0, 0], [1, 2]⟩⟩

/-- A parcellation with one region (label 5) and one vertex carrying that
label. -/
def c9MatchAnnot : FsAnnot :=
  ⟨[0], [5], ⟨[0], [[120]], [0], [0], [0], [0], [5]⟩⟩

/-! ## Claim theorems -/

/-- A small MGH header used as witness input for the dtype dispatch. -/
def c6Header : FsMghHeader :=
  { mgh_format_version := 1, dim1len := 1, dim2len := 1, dim3len := 1, dim4len := 2,
    dtype := 0, dof := 0, is_ras_good := -1, delta := [], mdc_raw := [], p_xyz_c := [] }

/-- An MGH header with a negative first dimension; the remaining
dimensions are zero, so the voxel count is zero and decoding succeeds. -/
def c10NegHeader : FsMghHeader :=
  { mgh_format_version := 1, dim1len := -1, dim2len := 0, dim3len := 0, dim4len := 0,
    dtype := 0, dof := 0, is_ras_good := -1, delta := [], mdc_raw := [], p_xyz_c := [] }

/-- A small MGH header with dtype float used as witness input. -/
def c10GoodHeader : FsMghHeader :=
  { mgh_format_version := 1, dim1len := 1, dim2len := 1, dim3len := 1, dim4len := 1,
    dtype := 3, dof := 0, is_ras_good := -1, delta := [], mdc_raw := [], p_xyz_c := [] }

/-- The decoded payload of `c10GoodHeader` over 288 zero bytes. -/
def c10GoodData : FsMghData := ⟨none, some ⟨(1, 1, 1, 1), [0]⟩, none, none⟩

/-! ## Theorems -/

theorem readU32_encode (n : Nat) (hn : n < 2 ^ 32) (rest : List Nat) :
    readU32 (u32ToBytesBE n ++ rest) = some (n, rest) := by
  simp only [u32ToBytesBE, List.cons_append, List.nil_append, readU32, bytesToU32BE]
  congr 2
  omega

theorem u32ToI32_i32ToU32 (i : Int) (hlo : -2 ^ 31 ≤ i) (hhi : i < 2 ^ 31) :
    u32ToI32 (i32ToU32 i) = i := by
  have h1 : i32ToU32 i = (i % 2 ^ 32).toNat := rfl
  rw [u32ToI32, h1]
  split <;> omega

theorem readI32_encode (i : Int) (hlo : -2 ^ 31 ≤ i) (hhi : i < 2 ^ 31) (rest : List Nat) :
    readI32 (encodeI32 i ++ rest) = some (i, rest) := by
  have hb : i32ToU32 i < 2 ^ 32 := by
    have h1 : i32ToU32 i = (i % 2 ^ 32).toNat := rfl
    omega
  simp only [encodeI32, readI32, readU32_encode _ hb]
  simp [u32ToI32_i32ToU32 i hlo hhi]

/-- Claim C7: the fixed-length string reader consumes exactly `n` bytes
and appends every byte read, embedded zero bytes included, except a zero
byte at the final position `n - 1`, which is consumed but not appended;
when the stream holds fewer than `n` bytes it fails with the I/O error. -/
theorem C7_read_fixed_length_string (n : Nat) (s : List Nat) :
    (s.length < n → read_fixed_length_string n s = .error .Io) ∧
    (n ≤ s.length →
      read_fixed_length_string n s = .ok (fixedStringOf n s, s.drop n)) := by
  induction n generalizing s with
  | zero =>
    refine ⟨fun h => absurd h (by omega), fun _ => ?_⟩
    simp [read_fixed_length_string, fixedStringOf]
  | succ n ih =>
    constructor
    · intro hlt
      cases s with
      | nil => rfl
      | cons c rest =>
        simp only [List.length_cons] at hlt
        have hr : rest.length < n := by omega
        have hn : n ≠ 0 := by omega
        simp only [read_fixed_length_string, if_neg hn, (ih rest).1 hr]
    · intro hle
      cases s with
      | nil => simp at hle
      | cons c rest =>
        simp only [List.length_cons] at hle
        by_cases hn : n = 0
        · subst hn
          simp only [read_fixed_length_string, if_pos rfl, fixedStringOf]
          by_cases hc : c = 0
          · subst hc
            simp
          · simp [hc]
        · have hr : n ≤ rest.length := by omega
          simp only [read_fixed_length_string, if_neg hn, (ih rest).2 hr]
          have hdrop : (c :: rest).drop (n + 1) = rest.drop n := by simp
          have hout : fixedStringOf (n + 1) (c :: rest) = c :: fixedStringOf n rest := by
            simp only [fixedStringOf]
            have h1 : n + 1 - 1 = n := by omega
            have h2 : (c :: rest).drop n = rest.drop (n - 1) := by
              cases n with
              | zero => omega
              | succ m => simp
            by_cases hz : (rest.drop (n - 1)).head? = some 0
            · have : 0 < n + 1 ∧ ((c :: rest).drop (n + 1 - 1)).head? = some 0 := by
                refine ⟨by omega, ?_⟩
                rw [h1, h2]; exact hz
              rw [if_pos this, if_pos ⟨by omega, hz⟩, h1]
              cases n with
              | zero => omega
              | succ m => simp
            · have : ¬ (0 < n + 1 ∧ ((c :: rest).drop (n + 1 - 1)).head? = some 0) := by
                rw [h1, h2]
                intro hcon
                exact hz hcon.2
              rw [if_neg this, if_neg (fun hcon => hz hcon.2)]
              simp
          rw [hout, hdrop]

theorem readVarStringAux_append (l rest : List Nat) :
    ∀ prev, readVarStringAux prev l = some (l, []) →
      readVarStringAux prev (l ++ rest) = some (l, rest) := by
  induction l with
  | nil => intro prev h; simp [readVarStringAux] at h
  | cons c t ih =>
    intro prev h
    by_cases hc : prev = 10 ∧ c = 10
    · simp only [readVarStringAux, if_pos hc] at h
      obtain ⟨h1, h2⟩ := Prod.mk.injEq .. ▸ Option.some.injEq .. ▸ h
      have ht : t = [] := by
        cases t with
        | nil => rfl
        | cons a b => simp at h1
      subst ht
      simp only [List.cons_append, List.nil_append, readVarStringAux, if_pos hc]
      cases h1
      rfl
    · simp only [readVarStringAux, if_neg hc] at h
      cases hr : readVarStringAux c t with
      | none => rw [hr] at h; simp at h
      | some p =>
        rw [hr] at h
        simp only [Option.map_some'] at h
        obtain ⟨h1, h2⟩ := Prod.mk.injEq .. ▸ Option.some.injEq .. ▸ h
        have hp : p = (t, []) := by
          cases p with
          | mk p1 p2 =>
            simp only at h1 h2
            cases h1
            simp_all
        subst hp
        simp only [List.cons_append, readVarStringAux, if_neg hc, List.append_eq, ih c hr]
        rfl

theorem readWords_encode (ws : List Nat) (hws : ∀ w ∈ ws, w < 2 ^ 32) (rest : List Nat) :
    readWords ws.length ((ws.map u32ToBytesBE).flatten ++ rest) = some (ws, rest) := by
  induction ws with
  | nil => simp [readWords]
  | cons w t ih =>
    have hw : w < 2 ^ 32 := hws w (by simp)
    have ht : ∀ v ∈ t, v < 2 ^ 32 := fun v hv => hws v (by simp [hv])
    simp only [List.map_cons, List.flatten_cons, List.length_cons, List.append_assoc]
    simp only [readWords, readU32_encode w hw, ih ht]

theorem readI32s_encode (xs : List Int) (hxs : ∀ i ∈ xs, -2 ^ 31 ≤ i ∧ i < 2 ^ 31)
    (rest : List Nat) :
    readI32s xs.length ((xs.map encodeI32).flatten ++ rest) = some (xs, rest) := by
  induction xs with
  | nil => simp [readI32s]
  | cons x t ih =>
    have hx := hxs x (by simp)
    have ht : ∀ i ∈ t, -2 ^ 31 ≤ i ∧ i < 2 ^ 31 := fun i hi => hxs i (by simp [hi])
    simp only [List.map_cons, List.flatten_cons, List.length_cons, List.append_assoc]
    simp only [readI32s, readI32_encode x hx.1 hx.2, ih ht]

theorem i32wrap_of_mem (n : Int) (hlo : -2 ^ 31 ≤ n) (hhi : n < 2 ^ 31) : i32wrap n = n := by
  rw [i32wrap]
  omega

theorem write_surf_from_file_eq (x : FsSurface) (hx : x.valid) :
    FsSurface.from_file (write_surf x) = .ok x := by
  obtain ⟨⟨mg, info, nv, nf⟩, verts, faces⟩ := x
  unfold FsSurface.valid at hx
  obtain ⟨hmg, hinfo, hnv0, hnv3, hnf0, hnf3, hvl, hfl, hvw, hfw⟩ := hx
  simp only at hmg hinfo hnv0 hnv3 hnf0 hnf3 hvl hfl hvw hfw
  subst hmg
  have hbytes : write_surf ⟨⟨(255, 255, 254), info, nv, nf⟩, verts, faces⟩ =
      255 :: 255 :: 254 ::
        (info ++
          (encodeI32 nv ++
            (encodeI32 nf ++
              ((verts.map u32ToBytesBE).flatten ++ (faces.map encodeI32).flatten)))) := rfl
  rw [hbytes]
  have hstr := readVarStringAux_append info
    (encodeI32 nv ++
      (encodeI32 nf ++ ((verts.map u32ToBytesBE).flatten ++ (faces.map encodeI32).flatten)))
    48 hinfo
  have hrnv := readI32_encode nv (by omega) (by omega)
    (encodeI32 nf ++ ((verts.map u32ToBytesBE).flatten ++ (faces.map encodeI32).flatten))
  have hrnf := readI32_encode nf (by omega) (by omega)
    ((verts.map u32ToBytesBE).flatten ++ (faces.map encodeI32).flatten)
  have hmagic : interpret_fs_int24 255 255 254 = TRIS_MAGIC_FILE_TYPE_NUMBER := by decide
  simp only [FsSurface.from_file, FsSurfaceHeader.from_reader,
    read_fs_variable_length_string, hstr, hrnv, hrnf, hmagic, if_pos]
  have hcv : (i32wrap (nv * 3)).toNat = verts.length := by
    rw [i32wrap_of_mem (nv * 3) (by omega) hnv3]
    omega
  have hcf : (i32wrap (nf * 3)).toNat = faces.length := by
    rw [i32wrap_of_mem (nf * 3) (by omega) hnf3]
    omega
  have hrv := readWords_encode verts hvw ((faces.map encodeI32).flatten)
  have hrf := readI32s_encode faces hfw []
  rw [List.append_nil] at hrf
  simp only [FsSurface.mesh_from_reader, hcv, hcf, hrv, hrf]

theorem maskLoop_spec (idxs : List Int) :
    ∀ acc : List Bool, (∀ i ∈ idxs, usizeOfI32 i < acc.length) →
      ∃ res, maskLoop idxs acc = some res ∧ res.length = acc.length ∧
        ∀ j : Nat, (res.getD j false = true ↔
          (acc.getD j false = true ∨ j ∈ idxs.map usizeOfI32)) := by
  induction idxs with
  | nil =>
    intro acc _
    exact ⟨acc, rfl, rfl, by simp⟩
  | cons i t ih =>
    intro acc hrange
    have hi : usizeOfI32 i < acc.length := hrange i (by simp)
    have hset : setTrueAt acc (usizeOfI32 i) = some (acc.set (usizeOfI32 i) true) := by
      simp [setTrueAt, hi]
    have hlen : (acc.set (usizeOfI32 i) true).length = acc.length := by simp
    have ht : ∀ v ∈ t, usizeOfI32 v < (acc.set (usizeOfI32 i) true).length := by
      intro v hv
      rw [hlen]
      exact hrange v (by simp [hv])
    obtain ⟨res, hres, hreslen, hchar⟩ := ih (acc.set (usizeOfI32 i) true) ht
    refine ⟨res, ?_, by rw [hreslen, hlen], ?_⟩
    · simp only [maskLoop, hset, hres]
    · intro j
      rw [hchar j]
      have hsetD : (acc.set (usizeOfI32 i) true).getD j false = true ↔
          (j = usizeOfI32 i ∨ acc.getD j false = true) := by
        simp only [List.getD_eq_getElem?_getD, List.getElem?_set]
        by_cases hj : usizeOfI32 i = j
        · subst hj
          simp [hi]
        · simp only [if_neg hj]
          constructor
          · intro h; exact Or.inr h
          · intro h
            rcases h with h | h
            · exact absurd h.symm hj
            · exact h
      rw [hsetD]
      simp only [List.map_cons, List.mem_cons]
      tauto

theorem i32wrap_emod (a : Int) : i32wrap a % 2 ^ 32 = a % 2 ^ 32 := by
  rw [i32wrap]
  omega

theorem i32wrap_congr {a b : Int} (h : a % 2 ^ 32 = b % 2 ^ 32) : i32wrap a = i32wrap b := by
  rw [i32wrap, i32wrap]
  omega

theorem i32add_wrap_left (x y : Int) : i32add (i32wrap x) y = i32wrap (x + y) := by
  simp only [i32add, i32wrap]
  omega

theorem i32mul_wrap_left (x y : Int) : i32mul (i32wrap x) y = i32wrap (x * y) := by
  rw [i32mul]
  refine i32wrap_congr ?_
  rw [Int.mul_emod, i32wrap_emod, ← Int.mul_emod]

theorem colortableEntryLabel_eq (r g b a : Int) :
    colortableEntryLabel r g b a = i32wrap (r + g * 2 ^ 8 + b * 2 ^ 16 + a * 2 ^ 24) := by
  simp only [colortableEntryLabel, i32add, i32mul, i32wrap]
  omega

theorem listSetName_nil (i : Nat) (x : List Nat) : listSetName [] i x = none := by
  simp [listSetName]

theorem assignRegionLoop_nil_acc_no_match (nm : List Nat) (lbl : Int) (vls : List Int)
    (h : ∀ v ∈ vls, v ≠ lbl) : ∀ idx, assignRegionLoop nm lbl idx vls [] = some [] := by
  induction vls with
  | nil => intro idx; rfl
  | cons v t ih =>
    intro idx
    have hv : v ≠ lbl := h v (by simp)
    simp only [assignRegionLoop, if_neg hv]
    exact ih (fun w hw => h w (by simp [hw])) (idx + 1)

theorem assignRegionLoop_nil_acc_match (nm : List Nat) (lbl : Int) (vls : List Int)
    (h : lbl ∈ vls) : ∀ idx, assignRegionLoop nm lbl idx vls [] = none := by
  induction vls with
  | nil => simp at h
  | cons v t ih =>
    intro idx
    by_cases hv : v = lbl
    · simp only [assignRegionLoop, if_pos hv, listSetName_nil]
    · have ht : lbl ∈ t := by
        rcases List.mem_cons.mp h with h1 | h1
        · exact absurd h1.symm hv
        · exact h1
      simp only [assignRegionLoop, if_neg hv]
      exact ih ht (idx + 1)

theorem assignRegionLoop_nil_acc_dichotomy (nm : List Nat) (lbl : Int) (vls : List Int)
    (idx : Nat) :
    assignRegionLoop nm lbl idx vls [] = none ∨ assignRegionLoop nm lbl idx vls [] = some [] := by
  by_cases h : lbl ∈ vls
  · exact Or.inl (assignRegionLoop_nil_acc_match nm lbl vls h idx)
  · exact Or.inr (assignRegionLoop_nil_acc_no_match nm lbl vls
      (fun v hv hveq => h (hveq ▸ hv)) idx)

theorem firstPos_of_mem {l : List (List Nat)} {x : List Nat} (h : x ∈ l) :
    ∃ i, firstPos l x = some i ∧ l.get? i = some x := by
  induction l with
  | nil => simp at h
  | cons y t ih =>
    by_cases hy : y = x
    · exact ⟨0, by simp [firstPos, hy], by simp [hy]⟩
    · have hx : x ∈ t := by
        rcases List.mem_cons.mp h with h1 | h1
        · exact absurd h1.symm hy
        · exact h1
      obtain ⟨i, hi, hg⟩ := ih hx
      exact ⟨i + 1, by simp [firstPos, hy, hi], by simpa using hg⟩

theorem firstPos_get (l : List (List Nat)) (x : List Nat) :
    ∀ i, firstPos l x = some i → l.get? i = some x := by
  induction l with
  | nil => intro i h; simp [firstPos] at h
  | cons y t ih =>
    intro i h
    by_cases hy : y = x
    · simp only [firstPos, if_pos hy] at h
      cases h
      simp [hy]
    · simp only [firstPos, if_neg hy] at h
      cases hfp : firstPos t x with
      | none => rw [hfp] at h; simp at h
      | some j =>
        rw [hfp] at h
        simp only [Option.map_some'] at h
        cases h
        simpa using ih j hfp

theorem firstPos_of_nodup {l : List (List Nat)} (hnd : l.Nodup) :
    ∀ i x, l.get? i = some x → firstPos l x = some i := by
  induction l with
  | nil => intro i x h; simp at h
  | cons y t ih =>
    intro i x h
    cases i with
    | zero =>
      simp only [List.get?] at h
      cases h
      simp [firstPos]
    | succ j =>
      simp only [List.get?] at h
      have hx : x ∈ t := List.get?_mem h
      have hy : y ≠ x := by
        intro hyx
        subst hyx
        exact (List.nodup_cons.mp hnd).1 hx
      simp only [firstPos, if_neg hy, ih (List.nodup_cons.mp hnd).2 j x h]
      rfl

theorem vertexRegionsGo_dichotomy (annot : FsAnnot) :
    ∀ rem, vertexRegionsGo annot rem [] = none ∨ vertexRegionsGo annot rem [] = some [] := by
  intro rem
  induction rem with
  | nil => exact Or.inr rfl
  | cons nm rest ih =>
    cases hfp : firstPos annot.colortable.name nm with
    | none => exact Or.inl (by simp only [vertexRegionsGo, hfp])
    | some i =>
      cases hlbl : annot.colortable.label.get? i with
      | none => exact Or.inl (by simp only [vertexRegionsGo, hfp, hlbl])
      | some lbl =>
        cases hname : annot.colortable.name.get? i with
        | none => exact Or.inl (by simp only [vertexRegionsGo, hfp, hlbl, hname])
        | some rname =>
          rcases assignRegionLoop_nil_acc_dichotomy rname lbl annot.vertex_labels 0 with ha | ha
          · exact Or.inl (by simp only [vertexRegionsGo, hfp, hlbl, hname, ha])
          · have hstep : vertexRegionsGo annot (nm :: rest) [] = vertexRegionsGo annot rest [] := by
              simp only [vertexRegionsGo, hfp, hlbl, hname, ha]
            rw [hstep]
            exact ih

theorem vertexRegionsGo_some_empty (annot : FsAnnot) :
    ∀ rem, vertexRegionsGo annot rem [] = some [] →
      ∀ nm ∈ rem, ∀ i, firstPos annot.colortable.name nm = some i →
        ∀ lbl, annot.colortable.label.get? i = some lbl → lbl ∉ annot.vertex_labels := by
  intro rem
  induction rem with
  | nil =>
    intro _ nm hnm
    simp at hnm
  | cons nm0 rest ih =>
    intro hgo nm hnm i hfp lbl hlbl
    cases hfp0 : firstPos annot.colortable.name nm0 with
    | none =>
      simp only [vertexRegionsGo, hfp0] at hgo
      cases hgo
    | some i0 =>
      cases hlbl0 : annot.colortable.label.get? i0 with
      | none =>
        simp only [vertexRegionsGo, hfp0, hlbl0] at hgo
        cases hgo
      | some lbl0 =>
        cases hname0 : annot.colortable.name.get? i0 with
        | none =>
          simp only [vertexRegionsGo, hfp0, hlbl0, hname0] at hgo
          cases hgo
        | some rname0 =>
          rcases assignRegionLoop_nil_acc_dichotomy rname0 lbl0 annot.vertex_labels 0 with ha | ha
          · simp only [vertexRegionsGo, hfp0, hlbl0, hname0, ha] at hgo
            cases hgo
          · have hrest : vertexRegionsGo annot rest [] = some [] := by
              simp only [vertexRegionsGo, hfp0, hlbl0, hname0, ha] at hgo
              exact hgo
            rcases List.mem_cons.mp hnm with rfl | hnm2
            · rw [hfp0] at hfp
              cases hfp
              rw [hlbl0] at hlbl
              cases hlbl
              intro hmem
              have hnone :=
                assignRegionLoop_nil_acc_match rname0 lbl annot.vertex_labels hmem 0
              rw [hnone] at ha
              cases ha
            · exact ih hrest nm hnm2 i hfp lbl hlbl

theorem vertexRegionsGo_empty_of_no_match (annot : FsAnnot)
    (hlen : annot.colortable.label.length = annot.colortable.name.length)
    (hno : ∀ v ∈ annot.vertex_labels, v ∉ annot.colortable.label) :
    ∀ rem, (∀ nm ∈ rem, nm ∈ annot.colortable.name) →
      vertexRegionsGo annot rem [] = some [] := by
  intro rem
  induction rem with
  | nil => intro _; rfl
  | cons nm0 rest ih =>
    intro hsub
    obtain ⟨i0, hfp0, hget0⟩ := firstPos_of_mem (hsub nm0 (by simp))
    have hi0 : i0 < annot.colortable.name.length := by
      by_contra hcon
      rw [List.get?_eq_none.mpr (by omega)] at hget0
      cases hget0
    have hi0l : i0 < annot.colortable.label.length := by omega
    have hlbl0 : annot.colortable.label.get? i0 =
        some (annot.colortable.label.get ⟨i0, hi0l⟩) := List.get?_eq_get hi0l
    have hlbl0mem : annot.colortable.label.get ⟨i0, hi0l⟩ ∈ annot.colortable.label :=
      List.get?_mem hlbl0
    have hnomatch : ∀ v ∈ annot.vertex_labels,
        v ≠ annot.colortable.label.get ⟨i0, hi0l⟩ :=
      fun v hv heq => hno v hv (heq ▸ hlbl0mem)
    have ha := assignRegionLoop_nil_acc_no_match nm0
      (annot.colortable.label.get ⟨i0, hi0l⟩) annot.vertex_labels hnomatch 0
    have hstep : vertexRegionsGo annot (nm0 :: rest) [] = vertexRegionsGo annot rest [] := by
      simp only [vertexRegionsGo, hfp0, hlbl0, hget0, ha]
    rw [hstep]
    exact ih (fun nm hnm => hsub nm (by simp [hnm]))

theorem readBytes_of_le (n : Nat) :
    ∀ s : List Nat, n ≤ s.length → readBytes n s = some (s.take n, s.drop n) := by
  induction n with
  | zero => intro s _; simp [readBytes]
  | succ n ih =>
    intro s h
    cases s with
    | nil => simp at h
    | cons b rest =>
      simp only [List.length_cons] at h
      simp only [readBytes, readByte, ih rest (by omega)]
      simp

theorem readU32_of_le (s : List Nat) (h : 4 ≤ s.length) :
    ∃ w, readU32 s = some (w, s.drop 4) := by
  cases s with
  | nil => simp at h
  | cons b0 s0 =>
    cases s0 with
    | nil => simp at h
    | cons b1 s1 =>
      cases s1 with
      | nil => simp at h
      | cons b2 s2 =>
        cases s2 with
        | nil => simp at h
        | cons b3 rest => exact ⟨_, rfl⟩

theorem readI16_of_le (s : List Nat) (h : 2 ≤ s.length) :
    ∃ v, readI16 s = some (v, s.drop 2) := by
  cases s with
  | nil => simp at h
  | cons b0 s0 =>
    cases s0 with
    | nil => simp at h
    | cons b1 rest => exact ⟨_, rfl⟩

theorem readWords_of_le (n : Nat) :
    ∀ s : List Nat, 4 * n ≤ s.length →
      ∃ out, readWords n s = some (out, s.drop (4 * n)) ∧ out.length = n := by
  induction n with
  | zero => intro s _; exact ⟨[], by simp [readWords], rfl⟩
  | succ n ih =>
    intro s h
    obtain ⟨w, hw⟩ := readU32_of_le s (by omega)
    obtain ⟨out, hout, hlen⟩ := ih (s.drop 4) (by rw [List.length_drop]; omega)
    refine ⟨w :: out, ?_, by simp [hlen]⟩
    simp only [readWords, hw, hout, List.drop_drop]
    have harith : 4 + 4 * n = 4 * (n + 1) := by ring
    rw [harith]

theorem readI32s_of_le (n : Nat) :
    ∀ s : List Nat, 4 * n ≤ s.length →
      ∃ out, readI32s n s = some (out, s.drop (4 * n)) ∧ out.length = n := by
  induction n with
  | zero => intro s _; exact ⟨[], by simp [readI32s], rfl⟩
  | succ n ih =>
    intro s h
    obtain ⟨w, hw⟩ := readU32_of_le s (by omega)
    obtain ⟨out, hout, hlen⟩ := ih (s.drop 4) (by rw [List.length_drop]; omega)
    refine ⟨u32ToI32 w :: out, ?_, by simp [hlen]⟩
    simp only [readI32s, readI32, hw, Option.map_some', hout, List.drop_drop]
    have harith : 4 + 4 * n = 4 * (n + 1) := by ring
    rw [harith]

theorem readI16s_of_le (n : Nat) :
    ∀ s : List Nat, 2 * n ≤ s.length →
      ∃ out, readI16s n s = some (out, s.drop (2 * n)) ∧ out.length = n := by
  induction n with
  | zero => intro s _; exact ⟨[], by simp [readI16s], rfl⟩
  | succ n ih =>
    intro s h
    obtain ⟨v, hv⟩ := readI16_of_le s (by omega)
    obtain ⟨out, hout, hlen⟩ := ih (s.drop 2) (by rw [List.length_drop]; omega)
    refine ⟨v :: out, ?_, by simp [hlen]⟩
    simp only [readI16s, hv, hout, List.drop_drop]
    have harith : 2 + 2 * n = 2 * (n + 1) := by ring
    rw [harith]

theorem i32mul_chain (d1 d2 d3 d4 : Int) :
    i32mul (i32mul (i32mul d1 d2) d3) d4 = i32wrap (d1 * d2 * d3 * d4) := by
  have h1 : i32mul d1 d2 = i32wrap (d1 * d2) := rfl
  rw [h1, i32mul_wrap_left, i32mul_wrap_left]

theorem usizeOfI32_of_nonneg (i : Int) (h0 : 0 ≤ i) (hlt : i < 2 ^ 63) :
    usizeOfI32 i = i.toNat := by
  rw [usizeOfI32]
  omega

theorem from_shape_vec_some {α : Type} {shape : Nat × Nat × Nat × Nat} {v : List α}
    {arr : Array4 α} (h : from_shape_vec shape v = some arr) :
    arr.shape = shape ∧ arr.data = v ∧
      shape.1 * shape.2.1 * shape.2.2.1 * shape.2.2.2 = v.length := by
  unfold from_shape_vec at h
  split at h
  · cases h
    exact ⟨rfl, rfl, by assumption⟩
  · cases h

/-- Claim C1 (amended): the vox2ras derivation satisfies the center-voxel
identity exactly when its arithmetic is carried out exactly - for every
volume header whose calibration-valid flag is set, multiplying the
exact-arithmetic vox2ras matrix by the homogeneous center-voxel index
vector (dimensions halved by truncating integer division) yields the
header's stored center coordinate in the first three components with
difference zero, hence within the claimed 1e-2.  The `f32` computation of
the code satisfies no universal 1e-2 bound: see `C1_counterexample`, where
a single rounded subtraction makes the error 1. -/
theorem C1_vox2ras_center (h : FsMghHeader) (hras : h.is_ras_good = 1) :
    ∃ M, h.vox2ras = .ok M ∧ ∀ k, k < 3 →
      |mat4ApplyHom M (h.p_crs_c 0) (h.p_crs_c 1) (h.p_crs_c 2) k - h.p_xyz_c.getD k 0| ≤
        1 / 100 := by
  refine ⟨h.vox2rasEntry, ?_, ?_⟩
  · simp [FsMghHeader.vox2ras, hras]
  · intro k hk
    have hzero : mat4ApplyHom h.vox2rasEntry (h.p_crs_c 0) (h.p_crs_c 1) (h.p_crs_c 2) k -
        h.p_xyz_c.getD k 0 = 0 := by
      interval_cases k <;>
        norm_num [mat4ApplyHom, FsMghHeader.vox2rasEntry, FsMghHeader.p_xyz_0]
    rw [hzero]
    norm_num

/-- Witness for C1 at a concrete calibrated header. -/
theorem C1_vox2ras_center_witness :
    ∃ M, c1Header.vox2ras = .ok M ∧ ∀ k, k < 3 →
      |mat4ApplyHom M (c1Header.p_crs_c 0) (c1Header.p_crs_c 1) (c1Header.p_crs_c 2) k -
        c1Header.p_xyz_c.getD k 0| ≤ 1 / 100 :=
  C1_vox2ras_center c1Header rfl

set_option maxRecDepth 4000 in
unseal Rat.add Rat.mul Rat.sub in
/-- Counterexample for C1 as stated: with the `f32` arithmetic of the
source modelled faithfully (round to nearest, ties to even), the
calibrated header with voxel sizes (2^100, 1, 1), identity direction
cosines, dimensions 256 and stored center (1, 0, 0) makes the first
component of the center-voxel product come out as 0: the only inexact
operation in the whole evaluation is `p_xyz_0[0] = fl(1 - 2^107) =
-2^107`, after which the product cancels exactly, so the error is 1 -
far above the claimed 1e-2 tolerance. -/
theorem C1_counterexample :
    c1BigDeltaHeader.is_ras_good = 1 ∧
    c1BigDeltaHeader.vox2ras32 = .ok c1BigDeltaHeader.vox2rasEntry32 ∧
    mat4ApplyHom32 c1BigDeltaHeader.vox2rasEntry32 (c1BigDeltaHeader.p_crs_c32 0)
      (c1BigDeltaHeader.p_crs_c32 1) (c1BigDeltaHeader.p_crs_c32 2) 0 = 0 ∧
    c1BigDeltaHeader.p_xyz_c.getD 0 0 = 1 ∧
    ¬ |mat4ApplyHom32 c1BigDeltaHeader.vox2rasEntry32 (c1BigDeltaHeader.p_crs_c32 0)
        (c1BigDeltaHeader.p_crs_c32 1) (c1BigDeltaHeader.p_crs_c32 2) 0 -
      c1BigDeltaHeader.p_xyz_c.getD 0 0| ≤ 1 / 100 := by
  have h0 : mat4ApplyHom32 c1BigDeltaHeader.vox2rasEntry32 (c1BigDeltaHeader.p_crs_c32 0)
      (c1BigDeltaHeader.p_crs_c32 1) (c1BigDeltaHeader.p_crs_c32 2) 0 = 0 := by decide
  refine ⟨rfl, rfl, h0, rfl, ?_⟩
  rw [h0]
  norm_num [c1BigDeltaHeader]

/-- Claim C2: for every valid mesh value (correct magic, well-terminated
info line, counts in range and consistent with the array lengths, 32-bit
coordinate patterns, indices in i32 range), decoding the byte stream
produced by encoding it yields a mesh whose vertex and face sequences are
identical to the original. -/
theorem C2_surf_roundtrip (x : FsSurface) (hx : x.valid) :
    ∃ y, FsSurface.from_file (write_surf x) = .ok y ∧
      y.mesh.vertices = x.mesh.vertices ∧ y.mesh.faces = x.mesh.faces :=
  ⟨x, write_surf_from_file_eq x hx, rfl, rfl⟩

/-- Witness for C2 at a concrete small mesh. -/
theorem C2_surf_roundtrip_witness :
    c2Surf.valid ∧ ∃ y, FsSurface.from_file (write_surf c2Surf) = .ok y ∧
      y.mesh.vertices = c2Surf.mesh.vertices ∧ y.mesh.faces = c2Surf.mesh.faces :=
  ⟨by decide, C2_surf_roundtrip c2Surf (by decide)⟩

/-- Claim C3 (code evaluation): on a complete header whose three magic
bytes decode (as the 24-bit big-endian value (b1 shl 16) or (b2 shl 8) or
b3) to a value different from 16777214, the header reader returns
`InvalidFsSurfaceFormat` through the Result channel, but the mesh decode
entry point `FsSurface::from_file` unwraps that Result and panics instead
of reporting the error through its own error-result channel. -/
theorem C3_magic_check :
    interpret_fs_int24 0 0 0 ≠ TRIS_MAGIC_FILE_TYPE_NUMBER ∧
    FsSurfaceHeader.from_reader c3BadInput = .error .InvalidFsSurfaceFormat ∧
    FsSurface.from_file c3BadInput = .error .panic := by decide

/-- Claim C4: label parsing succeeds exactly when the number of parsed
data lines equals the declared entry count (cast as usize); when they
differ it fails with `InvalidFsLabelFormat`. -/
theorem C4_label_count_check (hdr_num_entries : Int) (dataLines : List LabelLine) :
    (usizeOfI32 hdr_num_entries = dataLines.length →
      ∃ l, read_label hdr_num_entries dataLines = .ok l ∧
        l.vertex_index.length = dataLines.length) ∧
    (usizeOfI32 hdr_num_entries ≠ dataLines.length →
      read_label hdr_num_entries dataLines = .error .InvalidFsLabelFormat) := by
  constructor
  · intro h
    exact ⟨{ vertex_index := dataLines.map LabelLine.vertex_index
             coord1 := dataLines.map LabelLine.coord1
             coord2 := dataLines.map LabelLine.coord2
             coord3 := dataLines.map LabelLine.coord3
             value := dataLines.map LabelLine.value },
           by simp [read_label, h], by simp⟩
  · intro h
    simp [read_label, h]

/-- Witness for C4: a file declaring 1085 entries but supplying 1084 data
lines fails with the malformed-label error. -/
theorem C4_label_count_check_witness :
    read_label 1085 (List.replicate 1084 ⟨0, 0, 0, 0, 0⟩) = .error .InvalidFsLabelFormat :=
  (C4_label_count_check 1085 (List.replicate 1084 ⟨0, 0, 0, 0, 0⟩)).2
    (by rw [List.length_replicate]; decide)

/-- Claim C5 (amended): the derived colortable label is the signed 32-bit
wrap of R + G*2^8 + B*2^16 + A*2^24; whenever that sum lies in i32 range
(as for the concrete entry R=25, G=5, B=25, A=0, whose label is 1639705)
the derived label equals the sum exactly. -/
theorem C5_colortable_label (entries : List RawColortableEntry) :
    (FsAnnotColortable.from_entries entries).label =
      entries.map (fun e => i32wrap (e.r + e.g * 2 ^ 8 + e.b * 2 ^ 16 + e.a * 2 ^ 24)) ∧
    (∀ r g b a : Int, -2 ^ 31 ≤ r + g * 2 ^ 8 + b * 2 ^ 16 + a * 2 ^ 24 →
      r + g * 2 ^ 8 + b * 2 ^ 16 + a * 2 ^ 24 < 2 ^ 31 →
      colortableEntryLabel r g b a = r + g * 2 ^ 8 + b * 2 ^ 16 + a * 2 ^ 24) := by
  constructor
  · simp [FsAnnotColortable.from_entries, colortableEntryLabel_eq]
  · intro r g b a hlo hhi
    rw [colortableEntryLabel_eq]
    exact i32wrap_of_mem _ hlo hhi

/-- Counterexample for C5 as stated: the entry with color components
(0,0,0,255) gets derived label -16777216 (the i32 computation wraps), not
0 + 0*2^8 + 0*2^16 + 255*2^24 = 4278190080. -/
theorem C5_counterexample :
    (FsAnnotColortable.from_entries [c5OverflowEntry]).label = [-16777216] ∧
    c5OverflowEntry.r + c5OverflowEntry.g * 2 ^ 8 + c5OverflowEntry.b * 2 ^ 16 +
      c5OverflowEntry.a * 2 ^ 24 = 4278190080 ∧
    (-16777216 : Int) ≠ 4278190080 := by decide

/-- Witness for C5: the concrete entry from the spec. -/
theorem C5_colortable_label_witness : colortableEntryLabel 25 5 25 0 = 1639705 := by
  rw [(C5_colortable_label []).2 25 5 25 0 (by decide) (by decide)]
  decide

/-- Witness for C7: reading 11 bytes with a trailing zero drops exactly
that zero; the stream is fully consumed. -/
theorem C7_read_fixed_length_string_witness :
    read_fixed_length_string 11 [116, 101, 115, 116, 10, 10, 116, 101, 115, 116, 0] =
      .ok ([116, 101, 115, 116, 10, 10, 116, 101, 115, 116], []) := by
  rw [(C7_read_fixed_length_string 11
    [116, 101, 115, 116, 10, 10, 116, 101, 115, 116, 0]).2 (by decide)]
  decide

/-- Claim C8 (amended): the membership mask is `none` (panic) when the
supplied total is smaller than the number of entries; when the total is
large enough and moreover every entry index is within the supplied total,
it returns a mask of that length with true exactly at the entry indices.
(As stated the claim is false: an entry index at or beyond the supplied
total also panics, see the counterexample.) -/
theorem C8_label_membership_mask (label : FsLabel) (num_surface_verts : Nat) :
    (num_surface_verts < label.vertex_index.length →
      label.is_surface_vertex_in_label num_surface_verts = none) ∧
    (label.vertex_index.length ≤ num_surface_verts →
      (∀ i ∈ label.vertex_index, usizeOfI32 i < num_surface_verts) →
      ∃ mask, label.is_surface_vertex_in_label num_surface_verts = some mask ∧
        mask.length = num_surface_verts ∧
        ∀ j : Nat, (mask.getD j false = true ↔ j ∈ label.vertex_index.map usizeOfI32)) := by
  constructor
  · intro h
    simp [FsLabel.is_surface_vertex_in_label, h]
  · intro hge hrange
    have hnot : ¬ num_surface_verts < label.vertex_index.length := by omega
    obtain ⟨res, hres, hlen, hchar⟩ := maskLoop_spec label.vertex_index
      (List.replicate num_surface_verts false) (by simpa using hrange)
    refine ⟨res, ?_, by simpa using hlen, ?_⟩
    · simp only [FsLabel.is_surface_vertex_in_label, if_neg hnot, hres]
    · intro j
      rw [hchar j]
      have hrep : (List.replicate num_surface_verts false).getD j false = false := by
        rcases Nat.lt_or_ge j num_surface_verts with hj | hj
        · simp [List.getD_eq_getElem?_getD, List.getElem?_replicate, hj]
        · simp [List.getD_eq_getElem?_getD, List.getElem?_replicate, Nat.not_lt.mpr hj]
      rw [hrep]
      simp

/-- Counterexample for C8 as stated: the supplied total 1 is not smaller
than the entry count 1, yet the operation panics (the entry index 5 is out
of bounds for the mask) instead of returning a boolean vector. -/
theorem C8_counterexample :
    c8Label.vertex_index.length ≤ 1 ∧
    c8Label.is_surface_vertex_in_label 1 = none := by decide

/-- Witness for C8 with in-range indices. -/
theorem C8_label_membership_mask_witness :
    ∃ mask, c8SmallLabel.is_surface_vertex_in_label 3 = some mask ∧
      mask.length = 3 ∧
      ∀ j : Nat, (mask.getD j false = true ↔ j ∈ c8SmallLabel.vertex_index.map usizeOfI32) :=
  (C8_label_membership_mask c8SmallLabel 3).2 (by decide) (by decide)

/-- Claim C9 (amended): for a parcellation whose colortable is well formed
(pairwise-distinct region names, one label per name), `vertex_regions`
never returns one entry per vertex: it either panics or returns the empty
list; it panics (out-of-bounds assignment into the length-zero vector)
exactly when some vertex label matches a derived label, and returns the
empty list when none does.  (As stated the claim is false for a colortable
with duplicated region names, see the counterexample.) -/
theorem C9_vertex_regions_behavior (annot : FsAnnot)
    (hnodup : annot.colortable.name.Nodup)
    (hlen : annot.colortable.label.length = annot.colortable.name.length) :
    (annot.vertex_regions = none ∨ annot.vertex_regions = some []) ∧
    ((∃ v ∈ annot.vertex_labels, v ∈ annot.colortable.label) →
      annot.vertex_regions = none) ∧
    ((∀ v ∈ annot.vertex_labels, v ∉ annot.colortable.label) →
      annot.vertex_regions = some []) := by
  refine ⟨vertexRegionsGo_dichotomy annot annot.colortable.name, ?_, ?_⟩
  · rintro ⟨v, hv, hvl⟩
    rcases vertexRegionsGo_dichotomy annot annot.colortable.name with h | h
    · exact h
    · exfalso
      obtain ⟨fi, hget⟩ := List.mem_iff_get.mp hvl
      have hgetq : annot.colortable.label.get? fi.1 = some v := by
        rw [List.get?_eq_get fi.2, hget]
      have hiname : fi.1 < annot.colortable.name.length := by
        have := fi.2
        omega
      have hnm : annot.colortable.name.get? fi.1 =
          some (annot.colortable.name.get ⟨fi.1, hiname⟩) := List.get?_eq_get hiname
      have hfp : firstPos annot.colortable.name (annot.colortable.name.get ⟨fi.1, hiname⟩) =
          some fi.1 := firstPos_of_nodup hnodup fi.1 _ hnm
      exact vertexRegionsGo_some_empty annot annot.colortable.name h
        (annot.colortable.name.get ⟨fi.1, hiname⟩) (List.get?_mem hnm) fi.1 hfp v hgetq hv
  · intro hno
    exact vertexRegionsGo_empty_of_no_match annot hlen hno annot.colortable.name
      (fun nm hnm => hnm)

/-- Counterexample for C9 as stated: in a parcellation whose colortable
repeats the region name under two entries with different derived labels,
the only vertex matches the second entry's derived label, yet the
operation returns the empty list normally instead of failing. -/
theorem C9_counterexample :
    (2 : Int) ∈ c9DupAnnot.vertex_labels ∧
    (2 : Int) ∈ c9DupAnnot.colortable.label ∧
    c9DupAnnot.vertex_regions = some [] := by decide

/-- Witness for C9: with a well-formed colortable and a matching vertex,
the operation panics. -/
theorem C9_vertex_regions_behavior_witness : c9MatchAnnot.vertex_regions = none :=
  (C9_vertex_regions_behavior c9MatchAnnot (by decide) (by decide)).2.1
    ⟨5, by decide, by decide⟩

theorem mghNumVoxels_eq (hdr : FsMghHeader)
    (h1 : 0 ≤ hdr.dim1len) (h2 : 0 ≤ hdr.dim2len) (h3 : 0 ≤ hdr.dim3len) (h4 : 0 ≤ hdr.dim4len)
    (hprod : hdr.dim1len * hdr.dim2len * hdr.dim3len * hdr.dim4len < 2 ^ 31) :
    mghNumVoxels hdr = mghVoxelCount hdr := by
  have hp0 : 0 ≤ hdr.dim1len * hdr.dim2len * hdr.dim3len * hdr.dim4len :=
    mul_nonneg (mul_nonneg (mul_nonneg h1 h2) h3) h4
  rw [mghNumVoxels, i32mul_chain, i32wrap_of_mem _ (by omega) hprod,
    usizeOfI32_of_nonneg _ hp0 (by omega), mghVoxelCount]

theorem mghVolDim_eq (hdr : FsMghHeader)
    (h1 : 0 ≤ hdr.dim1len) (h2 : 0 ≤ hdr.dim2len) (h3 : 0 ≤ hdr.dim3len) (h4 : 0 ≤ hdr.dim4len)
    (hb1 : hdr.dim1len < 2 ^ 31) (hb2 : hdr.dim2len < 2 ^ 31)
    (hb3 : hdr.dim3len < 2 ^ 31) (hb4 : hdr.dim4len < 2 ^ 31) :
    mghVolDim hdr =
      (hdr.dim1len.toNat, hdr.dim2len.toNat, hdr.dim3len.toNat, hdr.dim4len.toNat) := by
  rw [mghVolDim, usizeOfI32_of_nonneg _ h1 (by omega), usizeOfI32_of_nonneg _ h2 (by omega),
    usizeOfI32_of_nonneg _ h3 (by omega), usizeOfI32_of_nonneg _ h4 (by omega)]

theorem mghVolDim_prod (hdr : FsMghHeader)
    (h1 : 0 ≤ hdr.dim1len) (h2 : 0 ≤ hdr.dim2len) (h3 : 0 ≤ hdr.dim3len) (h4 : 0 ≤ hdr.dim4len)
    (hb1 : hdr.dim1len < 2 ^ 31) (hb2 : hdr.dim2len < 2 ^ 31)
    (hb3 : hdr.dim3len < 2 ^ 31) (hb4 : hdr.dim4len < 2 ^ 31) :
    (mghVolDim hdr).1 * (mghVolDim hdr).2.1 * (mghVolDim hdr).2.2.1 * (mghVolDim hdr).2.2.2 =
      mghVoxelCount hdr := by
  rw [mghVolDim_eq hdr h1 h2 h3 h4 hb1 hb2 hb3 hb4]
  show hdr.dim1len.toNat * hdr.dim2len.toNat * hdr.dim3len.toNat * hdr.dim4len.toNat =
    mghVoxelCount hdr
  have hc : ((hdr.dim1len.toNat * hdr.dim2len.toNat * hdr.dim3len.toNat *
      hdr.dim4len.toNat : Nat) : Int) =
      hdr.dim1len * hdr.dim2len * hdr.dim3len * hdr.dim4len := by
    push_cast [Int.toNat_of_nonneg h1, Int.toNat_of_nonneg h2,
      Int.toNat_of_nonneg h3, Int.toNat_of_nonneg h4]
    ring
  rw [mghVoxelCount, ← hc, Int.toNat_natCast]

/-- Claim C6: with a valid version header and dimensions in range, dtype
tag 0 decodes the payload as unsigned 8-bit samples with element count the
product of the four dimensions; tags 1, 3 and 4 decode 32-bit signed,
32-bit float and 16-bit signed samples of that count; any other tag fails
with the unsupported-data-type error. -/
theorem C6_mgh_dtype_dispatch (hdr : FsMghHeader) (bytes : List Nat)
    (_hver : hdr.mgh_format_version = 1)
    (h1 : 0 ≤ hdr.dim1len) (h2 : 0 ≤ hdr.dim2len) (h3 : 0 ≤ hdr.dim3len) (h4 : 0 ≤ hdr.dim4len)
    (hb1 : hdr.dim1len < 2 ^ 31) (hb2 : hdr.dim2len < 2 ^ 31)
    (hb3 : hdr.dim3len < 2 ^ 31) (hb4 : hdr.dim4len < 2 ^ 31)
    (hprod : hdr.dim1len * hdr.dim2len * hdr.dim3len * hdr.dim4len < 2 ^ 31) :
    (hdr.dtype = MRI_UCHAR → MGH_DATA_START + mghVoxelCount hdr ≤ bytes.length →
      ∃ arr, FsMgh.data_from_reader bytes hdr = .ok ⟨some arr, none, none, none⟩ ∧
        arr.data = (bytes.drop MGH_DATA_START).take (mghVoxelCount hdr) ∧
        arr.data.length = mghVoxelCount hdr) ∧
    (hdr.dtype = MRI_INT → MGH_DATA_START + 4 * mghVoxelCount hdr ≤ bytes.length →
      ∃ arr, FsMgh.data_from_reader bytes hdr = .ok ⟨none, none, some arr, none⟩ ∧
        arr.data.length = mghVoxelCount hdr) ∧
    (hdr.dtype = MRI_FLOAT → MGH_DATA_START + 4 * mghVoxelCount hdr ≤ bytes.length →
      ∃ arr, FsMgh.data_from_reader bytes hdr = .ok ⟨none, some arr, none, none⟩ ∧
        arr.data.length = mghVoxelCount hdr) ∧
    (hdr.dtype = MRI_SHORT → MGH_DATA_START + 2 * mghVoxelCount hdr ≤ bytes.length →
      ∃ arr, FsMgh.data_from_reader bytes hdr = .ok ⟨none, none, none, some arr⟩ ∧
        arr.data.length = mghVoxelCount hdr) ∧
    (hdr.dtype ≠ MRI_UCHAR → hdr.dtype ≠ MRI_INT → hdr.dtype ≠ MRI_FLOAT →
      hdr.dtype ≠ MRI_SHORT → MGH_DATA_START ≤ bytes.length →
      FsMgh.data_from_reader bytes hdr = .error (.err .UnsupportedMriDataTypeInMgh)) := by
  have hMDS : MGH_DATA_START = 284 := rfl
  have hnum := mghNumVoxels_eq hdr h1 h2 h3 h4 hprod
  have hpr := mghVolDim_prod hdr h1 h2 h3 h4 hb1 hb2 hb3 hb4
  refine ⟨?_, ?_, ?_, ?_, ?_⟩
  · intro hd hlen
    have h284 : ¬ bytes.length < MGH_DATA_START := by omega
    have hdl : (bytes.drop MGH_DATA_START).length = bytes.length - MGH_DATA_START :=
      List.length_drop ..
    have hread := readBytes_of_le (mghVoxelCount hdr) (bytes.drop MGH_DATA_START)
      (by rw [hdl]; omega)
    have htl : ((bytes.drop MGH_DATA_START).take (mghVoxelCount hdr)).length =
        mghVoxelCount hdr := by
      rw [List.length_take, hdl]
      omega
    have hfsv : from_shape_vec (mghVolDim hdr)
        ((bytes.drop MGH_DATA_START).take (mghVoxelCount hdr)) =
        some ⟨mghVolDim hdr, (bytes.drop MGH_DATA_START).take (mghVoxelCount hdr)⟩ := by
      unfold from_shape_vec
      rw [if_pos (by rw [htl]; exact hpr)]
    refine ⟨⟨mghVolDim hdr, (bytes.drop MGH_DATA_START).take (mghVoxelCount hdr)⟩, ?_, rfl, htl⟩
    unfold FsMgh.data_from_reader
    rw [if_neg h284, hd, if_pos rfl, hnum]
    simp only [hread, hfsv]
  · intro hd hlen
    have h284 : ¬ bytes.length < MGH_DATA_START := by omega
    have hdl : (bytes.drop MGH_DATA_START).length = bytes.length - MGH_DATA_START :=
      List.length_drop ..
    obtain ⟨out, hread, holen⟩ := readI32s_of_le (mghVoxelCount hdr) (bytes.drop MGH_DATA_START)
      (by rw [hdl]; omega)
    have hfsv : from_shape_vec (mghVolDim hdr) out = some ⟨mghVolDim hdr, out⟩ := by
      unfold from_shape_vec
      rw [if_pos (by rw [holen]; exact hpr)]
    refine ⟨⟨mghVolDim hdr, out⟩, ?_, holen⟩
    unfold FsMgh.data_from_reader
    have hd0 : hdr.dtype ≠ MRI_UCHAR := by rw [hd]; decide
    rw [if_neg h284, if_neg hd0, hd, if_pos rfl, hnum]
    simp only [hread, hfsv]
  · intro hd hlen
    have h284 : ¬ bytes.length < MGH_DATA_START := by omega
    have hdl : (bytes.drop MGH_DATA_START).length = bytes.length - MGH_DATA_START :=
      List.length_drop ..
    obtain ⟨out, hread, holen⟩ := readWords_of_le (mghVoxelCount hdr) (bytes.drop MGH_DATA_START)
      (by rw [hdl]; omega)
    have hfsv : from_shape_vec (mghVolDim hdr) out = some ⟨mghVolDim hdr, out⟩ := by
      unfold from_shape_vec
      rw [if_pos (by rw [holen]; exact hpr)]
    refine ⟨⟨mghVolDim hdr, out⟩, ?_, holen⟩
    unfold FsMgh.data_from_reader
    have hd0 : hdr.dtype ≠ MRI_UCHAR := by rw [hd]; decide
    have hd1 : hdr.dtype ≠ MRI_INT := by rw [hd]; decide
    rw [if_neg h284, if_neg hd0, if_neg hd1, hd, if_pos rfl, hnum]
    simp only [hread, hfsv]
  · intro hd hlen
    have h284 : ¬ bytes.length < MGH_DATA_START := by omega
    have hdl : (bytes.drop MGH_DATA_START).length = bytes.length - MGH_DATA_START :=
      List.length_drop ..
    obtain ⟨out, hread, holen⟩ := readI16s_of_le (mghVoxelCount hdr) (bytes.drop MGH_DATA_START)
      (by rw [hdl]; omega)
    have hfsv : from_shape_vec (mghVolDim hdr) out = some ⟨mghVolDim hdr, out⟩ := by
      unfold from_shape_vec
      rw [if_pos (by rw [holen]; exact hpr)]
    refine ⟨⟨mghVolDim hdr, out⟩, ?_, holen⟩
    unfold FsMgh.data_from_reader
    have hd0 : hdr.dtype ≠ MRI_UCHAR := by rw [hd]; decide
    have hd1 : hdr.dtype ≠ MRI_INT := by rw [hd]; decide
    have hd3 : hdr.dtype ≠ MRI_FLOAT := by rw [hd]; decide
    rw [if_neg h284, if_neg hd0, if_neg hd1, if_neg hd3, hd, if_pos rfl, hnum]
    simp only [hread, hfsv]
  · intro hn0 hn1 hn3 hn4 hlen
    have h284 : ¬ bytes.length < MGH_DATA_START := by omega
    unfold FsMgh.data_from_reader
    rw [if_neg h284, if_neg hn0, if_neg hn1, if_neg hn3, if_neg hn4]

/-- Witness for C6: a uchar volume of 2 voxels decodes from a 286-byte
stream. -/
theorem C6_mgh_dtype_dispatch_witness :
    ∃ arr, FsMgh.data_from_reader (List.replicate 286 9) c6Header =
        .ok ⟨some arr, none, none, none⟩ ∧
      arr.data = ((List.replicate 286 9).drop MGH_DATA_START).take (mghVoxelCount c6Header) ∧
      arr.data.length = mghVoxelCount c6Header :=
  (C6_mgh_dtype_dispatch c6Header (List.replicate 286 9) rfl (by decide) (by decide)
    (by decide) (by decide) (by decide) (by decide) (by decide) (by decide) (by decide)).1
    rfl (by rw [List.length_replicate]; decide)

/-- Claim C10 (amended): a successfully decoded volume has exactly one of
the four payload fields present, the one selected by the header's dtype
tag; for headers with dimensions in the usual range (nonnegative, in i32
range) the stored shape equals the header's four dimensions, and the shape
product always equals the payload length.  (As stated the claim is false
for a header with a negative dimension, see the counterexample.) -/
theorem C10_mgh_payload_invariant (hdr : FsMghHeader) (bytes : List Nat) (d : FsMghData)
    (hok : FsMgh.data_from_reader bytes hdr = .ok d)
    (h1 : 0 ≤ hdr.dim1len) (h2 : 0 ≤ hdr.dim2len) (h3 : 0 ≤ hdr.dim3len) (h4 : 0 ≤ hdr.dim4len)
    (hb1 : hdr.dim1len < 2 ^ 31) (hb2 : hdr.dim2len < 2 ^ 31)
    (hb3 : hdr.dim3len < 2 ^ 31) (hb4 : hdr.dim4len < 2 ^ 31) :
    ((hdr.dtype = MRI_UCHAR ∧ (∃ a, d.mri_uchar = some a) ∧ d.mri_float = none ∧
        d.mri_int = none ∧ d.mri_short = none) ∨
     (hdr.dtype = MRI_INT ∧ (∃ a, d.mri_int = some a) ∧ d.mri_uchar = none ∧
        d.mri_float = none ∧ d.mri_short = none) ∨
     (hdr.dtype = MRI_FLOAT ∧ (∃ a, d.mri_float = some a) ∧ d.mri_uchar = none ∧
        d.mri_int = none ∧ d.mri_short = none) ∨
     (hdr.dtype = MRI_SHORT ∧ (∃ a, d.mri_short = some a) ∧ d.mri_uchar = none ∧
        d.mri_float = none ∧ d.mri_int = none)) ∧
    (∀ arr, d.mri_uchar = some arr →
      arr.shape = (hdr.dim1len.toNat, hdr.dim2len.toNat, hdr.dim3len.toNat, hdr.dim4len.toNat) ∧
      arr.shape.1 * arr.shape.2.1 * arr.shape.2.2.1 * arr.shape.2.2.2 = arr.data.length) ∧
    (∀ arr, d.mri_float = some arr →
      arr.shape = (hdr.dim1len.toNat, hdr.dim2len.toNat, hdr.dim3len.toNat, hdr.dim4len.toNat) ∧
      arr.shape.1 * arr.shape.2.1 * arr.shape.2.2.1 * arr.shape.2.2.2 = arr.data.length) ∧
    (∀ arr, d.mri_int = some arr →
      arr.shape = (hdr.dim1len.toNat, hdr.dim2len.toNat, hdr.dim3len.toNat, hdr.dim4len.toNat) ∧
      arr.shape.1 * arr.shape.2.1 * arr.shape.2.2.1 * arr.shape.2.2.2 = arr.data.length) ∧
    (∀ arr, d.mri_short = some arr →
      arr.shape = (hdr.dim1len.toNat, hdr.dim2len.toNat, hdr.dim3len.toNat, hdr.dim4len.toNat) ∧
      arr.shape.1 * arr.shape.2.1 * arr.shape.2.2.1 * arr.shape.2.2.2 = arr.data.length) := by
  have hvd := mghVolDim_eq hdr h1 h2 h3 h4 hb1 hb2 hb3 hb4
  unfold FsMgh.data_from_reader at hok
  by_cases h284 : bytes.length < MGH_DATA_START
  · rw [if_pos h284] at hok
    cases hok
  · rw [if_neg h284] at hok
    by_cases hd0 : hdr.dtype = MRI_UCHAR
    · rw [if_pos hd0] at hok
      cases hread : readBytes (mghNumVoxels hdr) (bytes.drop MGH_DATA_START) with
      | none =>
        simp only [hread] at hok
        cases hok
      | some p =>
        obtain ⟨dv, rest⟩ := p
        simp only [hread] at hok
        cases hfsv : from_shape_vec (mghVolDim hdr) dv with
        | none =>
          simp only [hfsv] at hok
          cases hok
        | some arr =>
          simp only [hfsv] at hok
          obtain ⟨hsh, hdata, hprodl⟩ := from_shape_vec_some hfsv
          cases hok
          refine ⟨Or.inl ⟨hd0, ⟨arr, rfl⟩, rfl, rfl, rfl⟩, ?_, ?_, ?_, ?_⟩
          · intro arr0 h0
            cases h0
            refine ⟨by rw [hsh, hvd], ?_⟩
            rw [hsh, hdata]
            exact hprodl
          · intro arr0 h0
            cases h0
          · intro arr0 h0
            cases h0
          · intro arr0 h0
            cases h0
    · rw [if_neg hd0] at hok
      by_cases hd1 : hdr.dtype = MRI_INT
      · rw [if_pos hd1] at hok
        cases hread : readI32s (mghNumVoxels hdr) (bytes.drop MGH_DATA_START) with
        | none =>
          simp only [hread] at hok
          cases hok
        | some p =>
          obtain ⟨dv, rest⟩ := p
          simp only [hread] at hok
          cases hfsv : from_shape_vec (mghVolDim hdr) dv with
          | none =>
            simp only [hfsv] at hok
            cases hok
          | some arr =>
            simp only [hfsv] at hok
            obtain ⟨hsh, hdata, hprodl⟩ := from_shape_vec_some hfsv
            cases hok
            refine ⟨Or.inr (Or.inl ⟨hd1, ⟨arr, rfl⟩, rfl, rfl, rfl⟩), ?_, ?_, ?_, ?_⟩
            · intro arr0 h0
              cases h0
            · intro arr0 h0
              cases h0
            · intro arr0 h0
              cases h0
              refine ⟨by rw [hsh, hvd], ?_⟩
              rw [hsh, hdata]
              exact hprodl
            · intro arr0 h0
              cases h0
      · rw [if_neg hd1] at hok
        by_cases hd3 : hdr.dtype = MRI_FLOAT
        · rw [if_pos hd3] at hok
          cases hread : readWords (mghNumVoxels hdr) (bytes.drop MGH_DATA_START) with
          | none =>
            simp only [hread] at hok
            cases hok
          | some p =>
            obtain ⟨dv, rest⟩ := p
            simp only [hread] at hok
            cases hfsv : from_shape_vec (mghVolDim hdr) dv with
            | none =>
              simp only [hfsv] at hok
              cases hok
            | some arr =>
              simp only [hfsv] at hok
              obtain ⟨hsh, hdata, hprodl⟩ := from_shape_vec_some hfsv
              cases hok
              refine ⟨Or.inr (Or.inr (Or.inl ⟨hd3, ⟨arr, rfl⟩, rfl, rfl, rfl⟩)), ?_, ?_, ?_, ?_⟩
              · intro arr0 h0
                cases h0
              · intro arr0 h0
                cases h0
                refine ⟨by rw [hsh, hvd], ?_⟩
                rw [hsh, hdata]
                exact hprodl
              · intro arr0 h0
                cases h0
              · intro arr0 h0
                cases h0
        · rw [if_neg hd3] at hok
          by_cases hd4 : hdr.dtype = MRI_SHORT
          · rw [if_pos hd4] at hok
            cases hread : readI16s (mghNumVoxels hdr) (bytes.drop MGH_DATA_START) with
            | none =>
              simp only [hread] at hok
              cases hok
            | some p =>
              obtain ⟨dv, rest⟩ := p
              simp only [hread] at hok
              cases hfsv : from_shape_vec (mghVolDim hdr) dv with
              | none =>
                simp only [hfsv] at hok
                cases hok
              | some arr =>
                simp only [hfsv] at hok
                obtain ⟨hsh, hdata, hprodl⟩ := from_shape_vec_some hfsv
                cases hok
                refine ⟨Or.inr (Or.inr (Or.inr ⟨hd4, ⟨arr, rfl⟩, rfl, rfl, rfl⟩)), ?_, ?_, ?_, ?_⟩
                · intro arr0 h0
                  cases h0
                · intro arr0 h0
                  cases h0
                · intro arr0 h0
                  cases h0
                · intro arr0 h0
                  cases h0
                  refine ⟨by rw [hsh, hvd], ?_⟩
                  rw [hsh, hdata]
                  exact hprodl
          · rw [if_neg hd4] at hok
            cases hok

set_option maxRecDepth 4000 in
/-- Counterexample for C10 as stated: decoding a 284-byte file against a
header with dimensions (-1, 0, 0, 0) and dtype 0 succeeds, but the stored
shape's first component is the usize cast 2^64 - 1, which equals neither
the header's dim1len (-1) nor its toNat image (0). -/
theorem C10_counterexample :
    FsMgh.data_from_reader (List.replicate 284 0) c10NegHeader =
      .ok ⟨some ⟨(2 ^ 64 - 1, 0, 0, 0), []⟩, none, none, none⟩ ∧
    ((2 ^ 64 - 1 : Int) ≠ c10NegHeader.dim1len) ∧
    ((2 ^ 64 - 1 : Nat) ≠ c10NegHeader.dim1len.toNat) := by
  refine ⟨?_, by decide, by decide⟩
  decide

set_option maxRecDepth 4000 in
/-- Witness for C10 at a concrete successful float decode. -/
theorem C10_mgh_payload_invariant_witness :
    ((c10GoodHeader.dtype = MRI_UCHAR ∧ (∃ a, c10GoodData.mri_uchar = some a) ∧
        c10GoodData.mri_float = none ∧ c10GoodData.mri_int = none ∧
        c10GoodData.mri_short = none) ∨
     (c10GoodHeader.dtype = MRI_INT ∧ (∃ a, c10GoodData.mri_int = some a) ∧
        c10GoodData.mri_uchar = none ∧ c10GoodData.mri_float = none ∧
        c10GoodData.mri_short = none) ∨
     (c10GoodHeader.dtype = MRI_FLOAT ∧ (∃ a, c10GoodData.mri_float = some a) ∧
        c10GoodData.mri_uchar = none ∧ c10GoodData.mri_int = none ∧
        c10GoodData.mri_short = none) ∨
     (c10GoodHeader.dtype = MRI_SHORT ∧ (∃ a, c10GoodData.mri_short = some a) ∧
        c10GoodData.mri_uchar = none ∧ c10GoodData.mri_float = none ∧
        c10GoodData.mri_int = none)) ∧
    (∀ arr, c10GoodData.mri_uchar = some arr →
      arr.shape = (c10GoodHeader.dim1len.toNat, c10GoodHeader.dim2len.toNat,
        c10GoodHeader.dim3len.toNat, c10GoodHeader.dim4len.toNat) ∧
      arr.shape.1 * arr.shape.2.1 * arr.shape.2.2.1 * arr.shape.2.2.2 = arr.data.length) ∧
    (∀ arr, c10GoodData.mri_float = some arr →
      arr.shape = (c10GoodHeader.dim1len.toNat, c10GoodHeader.dim2len.toNat,
        c10GoodHeader.dim3len.toNat, c10GoodHeader.dim4len.toNat) ∧
      arr.shape.1 * arr.shape.2.1 * arr.shape.2.2.1 * arr.shape.2.2.2 = arr.data.length) ∧
    (∀ arr, c10GoodData.mri_int = some arr →
      arr.shape = (c10GoodHeader.dim1len.toNat, c10GoodHeader.dim2len.toNat,
        c10GoodHeader.dim3len.toNat, c10GoodHeader.dim4len.toNat) ∧
      arr.shape.1 * arr.shape.2.1 * arr.shape.2.2.1 * arr.shape.2.2.2 = arr.data.length) ∧
    (∀ arr, c10GoodData.mri_short = some arr →
      arr.shape = (c10GoodHeader.dim1len.toNat, c10GoodHeader.dim2len.toNat,
        c10GoodHeader.dim3len.toNat, c10GoodHeader.dim4len.toNat) ∧
      arr.shape.1 * arr.shape.2.1 * arr.shape.2.2.1 * arr.shape.2.2.2 = arr.data.length) :=
  C10_mgh_payload_invariant c10GoodHeader (List.replicate 288 0) c10GoodData (by decide)
    (by decide) (by decide) (by decide) (by decide)
    (by decide) (by decide) (by decide) (by decide)
